import Mathlib

/-!
# SafeRun: a shallow embedding of `src/SafeRun/SafeRun.c`

The sandbox supervisor is embedded function by function.  C `int` values are
Lean `Int`s; where the source does arithmetic that may leave the 32-bit range
the result is passed through `wrap32`.  System calls are not executed: each
function takes an environment record that gives the values the calls return,
and the functions are total in that environment.
-/

namespace SafeRun

/-! ## Constants (SafeRun.c lines 27-54) -/

def IHS_ERROR : Int := 180
def BAD_FORK : Int := 180
def SETUP_ERR : Int := 181
def BAD_WAIT : Int := 182
def BAD_CHROOT : Int := 183
def BAD_EXEC : Int := 184
def BAD_USER : Int := 185
def BAD_SELECT : Int := 186
def INTERRUPTED : Int := 187

def APP_FAILURE_BASE : Int := 0xC0
def TIMEOUT : Int := 0x1
def OUTPUT_OVERRUN : Int := 0x2
def ROGUE_PROCS : Int := 0x4
def RT_FAULT : Int := 0x8
def UNREAD_INPUT : Int := 0x10
def RESERVED : Int := 0x20

def BUF_SIZE : Nat := 4096
def MS_CHECK_TIME : Int := 20
def USR_NAME_LEN : Nat := 20
def MAX_MOUNTS : Nat := 16
def MAX_PROCS : Int := 100

/-- Value of a 32-bit two's complement `int` holding the mathematical integer `x`. -/
def wrap32 (x : Int) : Int := (x + 2 ^ 31) % 2 ^ 32 - 2 ^ 31

/-- One byte of stream data. -/
abbrev Byte := Nat

/-- Bytes of an ASCII text. -/
def textBytes (s : String) : List Byte := s.toList.map Char.toNat

/-- A `FILE *` the supervisor reports on; `none` is the null pointer. -/
inductive Stream where
  | stdout
  | stderr
  deriving DecidableEq, Repr

/-! ## Wait-status macros

`WIFEXITED`, `WEXITSTATUS`, `WIFSIGNALED` and `WTERMSIG` come from the Linux
`<sys/wait.h>`: `s & 0x7f`, `(s & 0xff00) >> 8`.  On two's complement integers
the masks are the remainders and quotients below. -/

def WTERMSIG (s : Int) : Int := s % 128

def WIFEXITED (s : Int) : Bool := WTERMSIG s == 0

def WEXITSTATUS (s : Int) : Int := (s / 256) % 256

def WIFSIGNALED (s : Int) : Bool := 0 < WTERMSIG s && WTERMSIG s < 127

/-! ## Report and ShowCode -/

/-- `Report` (lines 100-103): the line is printed only on a non-null stream.
The result is the list of lines added to the report. -/
def Report (reportStr : Option Stream) (line : String) : List String :=
  if reportStr.isSome then [line] else []

/-- `ShowCode` (lines 442-454): the report lines and the returned code. -/
def ShowCode (reportStr : Option Stream) (IHSError progErrors status : Int) :
    List String × Int :=
  if IHSError ≠ 0 then
    (Report reportStr ("SafeRun problem: error code " ++ toString IHSError ++ "\n"), IHSError)
  else if progErrors ≠ 0 then
    ([], wrap32 (APP_FAILURE_BASE + progErrors))
  else if status ≠ 0 then
    (Report reportStr ("Your program exited with nonzero code " ++ toString status ++ "\n"),
      status)
  else
    ([], status)

/-! ## PumpOutput (lines 171-193) -/

/-- The fields of `OutputParams` (lines 65-72). -/
structure OutputParams where
  outFd : Int
  inFd : Int
  byteLimit : Int
  status : Int
  bytesRead : Int
  reportStr : Option Stream
  deriving Repr

/-- The `while` loop of `PumpOutput`.  `reads` are the buffers successive
`read` calls deliver; an empty buffer, or the end of the list, is the read
that returns 0.  The state is `bytesAllowed`, `op->bytesRead` and the bytes
written to `op->outFd` so far. -/
def pumpLoop : List (List Byte) → Int → Int → List Byte → Int × Int × List Byte
  | [], bytesAllowed, bytesRead, sink => (bytesAllowed, bytesRead, sink)
  | buf :: rest, bytesAllowed, bytesRead, sink =>
    let charsRead : Int := buf.length
    if 0 < charsRead then
      let toWrite := if bytesAllowed < charsRead then bytesAllowed else charsRead
      if toWrite > 0 then
        pumpLoop rest (wrap32 (bytesAllowed - toWrite)) (wrap32 (bytesRead + charsRead))
          (sink ++ buf.take toWrite.toNat)
      else
        pumpLoop rest bytesAllowed (wrap32 (bytesRead + charsRead)) sink
    else (bytesAllowed, bytesRead, sink)

/-- Text that `sprintf(outBuf, "... and %d dropped bytes\n", n)` produces. -/
def droppedText (n : Int) : List Byte :=
  textBytes ("... and " ++ toString n ++ " dropped bytes\n")

/-- `PumpOutput`: the parameter block on return and the bytes written to
`op->outFd`. -/
def PumpOutput (op : OutputParams) (reads : List (List Byte)) : OutputParams × List Byte :=
  let r := pumpLoop reads op.byteLimit 0 []
  let bytesRead := r.2.1
  let sink := r.2.2
  let sink :=
    if bytesRead > op.byteLimit then sink ++ droppedText (wrap32 (bytesRead - op.byteLimit))
    else sink
  ({ op with bytesRead := bytesRead,
             status := if bytesRead > op.byteLimit then OUTPUT_OVERRUN else 0 }, sink)

/-! ## MopUpInput (lines 289-305) -/

/-- The `do ... while` loop of `MopUpInput`: `reads` are the values successive
`read` calls return; the end of the list is a read that returns 0. -/
def mopLoop : List Int → Int → Int
  | [], extraInBytes => extraInBytes
  | extraIn :: rest, extraInBytes =>
    if extraIn > 0 then mopLoop rest (wrap32 (extraInBytes + extraIn)) else extraInBytes

/-- `MopUpInput`: the report lines and the new value of `*progErrors`. -/
def MopUpInput (reads : List Int) (byteLimit progErrors : Int) (reportStr : Option Stream) :
    List String × Int :=
  let extraInBytes := mopLoop reads 0
  if extraInBytes ≠ 0 ∧ byteLimit ≠ -1 ∧ byteLimit ≠ extraInBytes then
    (Report reportStr (toString extraInBytes ++ " input bytes dropped\n"),
      Int.lor progErrors UNREAD_INPUT)
  else ([], progErrors)

/-! ## RunLimits (lines 74-93) -/

def PATH_MAX : Nat := 4096

/-- The limits record.  C strings are lists of characters without the
terminating zero; `mount` holds the rows of the array in order, and the first
empty row (or the end of the list) is the terminating empty string. -/
structure RunLimits where
  maxOutput : Int
  allowFiles : Int
  maxProcs : Int
  maxMsCPU : Int
  maxMsRuntime : Int
  maxMem : Int
  unreadInputAllowed : Int
  binaryInput : Int
  stdoutErrors : Int
  chrootJail : Int
  unshareNetwork : Int
  user : List Char
  userMutex : Int
  mount : List (List Char)
  quiet : Int

/-- The initial value of `limits` in `main` (lines 460-461). -/
def defaultLimits : RunLimits :=
  { maxOutput := 1000000, allowFiles := 0, maxProcs := 10, maxMsCPU := 2000,
    maxMsRuntime := 10000, maxMem := 2000000000, unreadInputAllowed := 0,
    binaryInput := 0, stdoutErrors := 0, chrootJail := 0, unshareNetwork := 0,
    user := [], userMutex := 0, mount := [], quiet := 0 }

/-- How a function that may call `exit` ends. -/
inductive Ended (α : Type) where
  | returned : α → Ended α
  | exited : Int → Ended α
  deriving DecidableEq

/-- The wait status of a process that ended by `exit(code)`: the low eight
bits of the code in bits 8-15, as `wait(2)` describes. -/
def exitStatus (code : Int) : Int := (code % 256) * 256

/-! ## FindRogues (lines 263-287) -/

/-- Values returned by the system calls of `FindRogues`.  `fork` is the value
seen by the process that is followed: 0 in the helper, the helper's pid or a
negative value in the caller.  `helperSetuid` and `helperKill` are the results
of `setuid` and `kill(-1, 9)` in the helper. -/
structure RoguesEnv where
  getpwnam : Option Int
  setpriority : Int
  fork : Int
  helperSetuid : Int
  helperKill : Int
  sessionKill : Int

/-- The code the helper process passes to `exit` (lines 270-273). -/
def helperExit (env : RoguesEnv) : Int :=
  if env.helperSetuid = 0 then (if env.helperKill = 0 then 1 else 0) else -1

/-- `FindRogues`: lines written to stderr and the returned value, or the
helper's exit.  `waitpid` stores the helper's exit status in `rogues`. -/
def FindRogues (ssid : Int) (user : List Char) (env : RoguesEnv) :
    Ended (List String × Int) :=
  let tail (diag : List String) (rogues : Int) : Ended (List String × Int) :=
    if ssid ≠ 0 then
      .returned (diag, Int.lor rogues (if env.sessionKill = 0 then 1 else 0))
    else .returned (diag, rogues)
  if user ≠ [] ∧ env.getpwnam.isSome ∧ env.setpriority = 0 then
    if env.fork = 0 then
      if env.helperSetuid = 0 then .exited (if env.helperKill = 0 then 1 else 0)
      else .exited (-1)
    else if env.fork > 0 then
      let rogues := exitStatus (helperExit env)
      tail [] (if WIFEXITED rogues && WEXITSTATUS rogues != 0 then 1 else 0)
    else tail ["fork failed"] 0
  else tail [] 0

/-! ## DoChild (lines 357-435) -/

inductive Rlimit where
  | CPU
  | AS
  | NPROC
  deriving DecidableEq, Repr

/-- The calls `DoChild` makes, in the order of the source.  `rewire` stands
for the `dup2` and `close` calls of lines 417-430, whose results are ignored. -/
inductive Step where
  | close_mPty
  | getpwnam
  | ChownContents
  | unshare (network : Bool)
  | MakePath (dest : List Char)
  | mount (source dest : List Char)
  | chroot
  | setuid
  | setsid
  | setrlimit (r : Rlimit) (value : Int)
  | rewire (binaryInput : Bool)
  | execvp
  deriving DecidableEq, Repr

/-- Values returned by the calls of `DoChild`; `execOk` says that `execvp`
replaced the process image and so did not return. -/
structure ChildEnv where
  getpwnam : Option Int
  ChownContents : Int
  unshare : Bool → Int
  MakePath : List Char → Int
  mount : List Char → List Char → Int
  chroot : Int
  setuid : Int
  setrlimit : Rlimit → Int → Int
  execOk : Bool

/-- The calls made so far and, when the function has returned, its value. -/
abbrev ChildRun := List Step × Option Int

/-- Sequencing with early return: `b` runs only when `a` did not return. -/
def ChildRun.andThen (a b : ChildRun) : ChildRun :=
  match a.2 with
  | some _ => a
  | none => (a.1 ++ b.1, b.2)

/-- Lines 367-371. -/
def childOwn (limits : RunLimits) (env : ChildEnv) : ChildRun :=
  if limits.user ≠ [] then
    if env.getpwnam.isNone then ([.getpwnam], some BAD_USER)
    else if env.ChownContents ≠ 0 then ([.getpwnam, .ChownContents], some BAD_USER)
    else ([.getpwnam, .ChownContents], none)
  else ([], none)

/-- The bind-mount loop, lines 388-394. -/
def childMounts (env : ChildEnv) : List (List Char) → ChildRun
  | [] => ([], none)
  | source :: rest =>
    if source = [] then ([], none)
    else
      let dest := (source.drop 1).take PATH_MAX
      if env.MakePath dest ≠ 0 then ([.MakePath dest], some BAD_CHROOT)
      else if env.mount source dest ≠ 0 then
        ([.MakePath dest, .mount source dest], some BAD_CHROOT)
      else ChildRun.andThen ([.MakePath dest, .mount source dest], none) (childMounts env rest)

/-- Lines 381-398. -/
def childJail (limits : RunLimits) (env : ChildEnv) : ChildRun :=
  if limits.chrootJail ≠ 0 then
    let network : Bool := limits.unshareNetwork ≠ 0
    if env.unshare network ≠ 0 then ([.unshare network], some BAD_CHROOT)
    else
      ChildRun.andThen ([.unshare network], none)
        (ChildRun.andThen (childMounts env limits.mount)
          (if env.chroot ≠ 0 then ([.chroot], some BAD_CHROOT) else ([.chroot], none)))
  else ([], none)

/-- Lines 400-404. -/
def childSetuid (limits : RunLimits) (env : ChildEnv) : ChildRun :=
  ChildRun.andThen
    (if limits.user ≠ [] then
      (if env.setuid ≠ 0 then ([.setuid], some BAD_USER) else ([.setuid], none))
    else ([], none))
    ([.setsid], none)

/-- The CPU limit in seconds, line 407: `(limits.maxMsCPU+999)/1000`. -/
def cpuSeconds (maxMsCPU : Int) : Int := Int.tdiv (wrap32 (maxMsCPU + 999)) 1000

/-- Lines 407-415. -/
def childLimits (limits : RunLimits) (env : ChildEnv) : ChildRun :=
  let cpu := Step.setrlimit .CPU (cpuSeconds limits.maxMsCPU)
  let mem := Step.setrlimit .AS limits.maxMem
  let proc := Step.setrlimit .NPROC limits.maxProcs
  if env.setrlimit .CPU (cpuSeconds limits.maxMsCPU) ≠ 0 then ([cpu], some BAD_USER)
  else if env.setrlimit .AS limits.maxMem ≠ 0 then ([cpu, mem], some BAD_USER)
  else if env.setrlimit .NPROC limits.maxProcs ≠ 0 then ([cpu, mem, proc], some BAD_USER)
  else ([cpu, mem, proc], none)

/-- Lines 417-434. -/
def childExec (limits : RunLimits) (env : ChildEnv) : ChildRun :=
  if env.execOk then ([.rewire (limits.binaryInput ≠ 0), .execvp], none)
  else ([.rewire (limits.binaryInput ≠ 0), .execvp], some BAD_EXEC)

/-- The setup sequence of `DoChild` up to and including `execvp`.  The second
component is `none` when `execvp` succeeded, so that `DoChild` did not return,
and the returned code otherwise. -/
def DoChild (limits : RunLimits) (env : ChildEnv) : ChildRun :=
  ChildRun.andThen ([.close_mPty], none)
    (ChildRun.andThen (childOwn limits env)
      (ChildRun.andThen (childJail limits env)
        (ChildRun.andThen (childSetuid limits env)
          (ChildRun.andThen (childLimits limits env) (childExec limits env)))))

/-- The fields of `struct rusage` that `GetRealMs` reads. -/
structure Rusage where
  utime_sec : Int
  utime_usec : Int
  stime_sec : Int
  stime_usec : Int

/-- `GetRealMs` (lines 437-440); the result is converted to `int`. -/
def GetRealMs (ru : Rusage) : Int :=
  wrap32 ((ru.utime_sec + ru.stime_sec) * 1000
    + Int.tdiv (ru.utime_usec + ru.stime_usec) 1000)

/-- What the parent observes after `fork`.  `wInit` is the indeterminate
initial content of `wResult`; `intrAt k`, `pollW k` and `pollStatus k` are the
`interrupted` flag, the result of `waitpid(child, &status, WNOHANG)` and the
status it stores at the `k`-th test of the poll loop; `killW` and `killStatus`
are the result and status of the blocking `waitpid` after `SIGKILL`;
`intrFinal` is the flag as read at line 549. -/
structure ParentEnv where
  mPty : Int
  errPipe0 : Int
  wInit : Int
  intrAt : Nat → Bool
  pollW : Nat → Int
  pollStatus : Nat → Int
  killW : Int
  killStatus : Int
  intrFinal : Bool
  strsignal : Int → String
  rogues : RoguesEnv
  selfUsage : Rusage
  childUsage : Rusage
  mopReads : List Int
  outReads : List (List Byte)
  errReads : List (List Byte)

/-- The poll loop, lines 534-538.  The first argument bounds the number of
iterations, the second counts them; the result is `wResult` and `status` when
the loop ends.  `waitpid` stores a status only when it returns a pid. -/
def pollLoop (env : ParentEnv) (maxMsRuntime child : Int) :
    Nat → Nat → Int → Int → Int → Int × Int
  | 0, _, _, wResult, status => (wResult, status)
  | fuel + 1, k, elapsedUs, wResult, status =>
    if elapsedUs < maxMsRuntime ∧ env.intrAt k = false then
      let w := env.pollW k
      let status := if w > 0 then env.pollStatus k else status
      if w = 0 then pollLoop env maxMsRuntime child fuel (k + 1) (elapsedUs + MS_CHECK_TIME) w status
      else (w, status)
    else (wResult, status)

/-- Iterations after which `elapsedUs < maxMsRuntime` is certainly false. -/
def pollFuel (maxMsRuntime : Int) : Nat := maxMsRuntime.toNat / 20 + 1

/-- The state of `main` that the exit classification works on. -/
structure Verdict where
  report : List String
  IHSError : Int
  progErrors : Int
  status : Int

/-- Lines 549-570: classification of the wait result. -/
def classify (reportStr : Option Stream) (strsignal : Int → String) (interrupted : Bool)
    (wResult child status progErrors : Int) : Verdict :=
  if interrupted then ⟨[], INTERRUPTED, progErrors, status⟩
  else if wResult ≠ 0 ∧ wResult ≠ child then ⟨[], BAD_WAIT, progErrors, status⟩
  else if !WIFEXITED status then
    let lines :=
      if reportStr.isSome then
        if WIFSIGNALED status then
          ["Abnormal termination via signal " ++ strsignal (WTERMSIG status) ++ "\n"]
        else ["Abnormal termination\n"]
      else []
    ⟨lines, 0, Int.lor progErrors RT_FAULT, status⟩
  else
    let status := WEXITSTATUS status
    if status ≥ APP_FAILURE_BASE then ⟨[], 0, progErrors, IHS_ERROR - 1⟩
    else if status ≥ IHS_ERROR then ⟨[], status, progErrors, status⟩
    else ⟨[], 0, progErrors, status⟩

/-- How `main` ends in the process that is followed. -/
inductive Outcome where
  | returned (code : Int)
  | exited (code : Int)
  | execed
  | fault
  deriving DecidableEq, Repr

/-- What a run of `main` leaves behind: how it ended, the lines on the report
stream, the number of `fork` calls made directly by `main`, and, on the parent
path, the parameter blocks of the two output pumps with the bytes they wrote
to descriptors 1 and 2. -/
structure MainResult where
  outcome : Outcome
  report : List String
  forks : Nat
  outPrms : Option OutputParams
  errPrms : Option OutputParams
  out : List Byte
  err : List Byte

/-- A run that ended before the pumps were started. -/
def MainResult.early (outcome : Outcome) (report : List String) (forks : Nat) : MainResult :=
  ⟨outcome, report, forks, none, none, [], []⟩

/-- Lines 504-611, the parent after a successful `fork`. -/
def parentPath (limits : RunLimits) (reportStr : Option Stream) (child : Int)
    (env : ParentEnv) : MainResult :=
  let outRun := PumpOutput ⟨1, env.mPty, limits.maxOutput, 0, 0, reportStr⟩ env.outReads
  let errRun := PumpOutput ⟨2, env.errPipe0, limits.maxOutput, 0, 0, none⟩ env.errReads
  let polled := pollLoop env limits.maxMsRuntime child (pollFuel limits.maxMsRuntime) 0 0
    env.wInit 0
  let killed := polled.1 ≠ child
  let wResult := if killed then env.killW else polled.1
  let status := if killed then (if env.killW > 0 then env.killStatus else polled.2) else polled.2
  let report1 := if killed then
    Report reportStr ("Wallclock time exceeded " ++ toString limits.maxMsRuntime ++ " mS\n")
    else []
  let progErrors := if killed then Int.lor 0 TIMEOUT else 0
  let v := classify reportStr env.strsignal env.intrFinal wResult child status progErrors
  match FindRogues child limits.user env.rogues with
  | .exited code => ⟨.exited code, report1 ++ v.report, 1, none, none, [], []⟩
  | .returned (_, numRogues) =>
    let report2 := if numRogues ≠ 0 then
      Report reportStr ("Killed " ++ toString numRogues ++ " rogue child processes\n") else []
    let progErrors := if numRogues ≠ 0 then Int.lor v.progErrors ROGUE_PROCS else v.progErrors
    let msUsage := wrap32 (GetRealMs env.selfUsage + GetRealMs env.childUsage)
    let overCpu := limits.maxMsCPU ≤ msUsage
    let report3 := if overCpu then
      Report reportStr ("CPU time exceeded " ++ toString limits.maxMsCPU ++ " mS\n") else []
    let progErrors := if overCpu then Int.lor progErrors TIMEOUT else progErrors
    let mop := MopUpInput env.mopReads limits.unreadInputAllowed progErrors reportStr
    let shown := ShowCode reportStr v.IHSError mop.2 v.status
    ⟨.returned shown.2, report1 ++ v.report ++ report2 ++ report3 ++ mop.1 ++ shown.1, 1,
      some outRun.1, some errRun.1, outRun.2, errRun.2⟩

/-- Values returned by the calls `main` makes before and at `fork`, and the
environments of the two paths after it. -/
structure MainEnv where
  openMasterPty : Bool
  pipeErr : Int
  pipeIn : Int
  preRogues : RoguesEnv
  lockFd : Int
  flock : Int
  geteuid : Int
  fork : Int
  childEnv : ChildEnv
  parentEnv : ParentEnv

/-- Lines 499-611: `fork` and the three paths after it. -/
def mainFork (limits : RunLimits) (reportStr : Option Stream) (env : MainEnv) : MainResult :=
  if env.fork < 0 then MainResult.early (.returned BAD_FORK) [] 1
  else if env.fork = 0 then
    match (DoChild limits env.childEnv).2 with
    | some code => MainResult.early (.returned code) [] 1
    | none => MainResult.early .execed [] 1
  else parentPath limits reportStr env.fork env.parentEnv

/-- `fprintf(reportStr, line)` followed by `return code` before any `fork`:
a null `reportStr` is dereferenced by `fprintf`. -/
def printAndReturn (reportStr : Option Stream) (line : String) (code : Int) : MainResult :=
  match reportStr with
  | some _ => MainResult.early (.returned code) [line] 0
  | none => MainResult.early .fault [] 0

/-- `main` from line 473 on, given the limits `ProcessArgs` produced. -/
def main (limits : RunLimits) (env : MainEnv) : MainResult :=
  let reportStr : Option Stream :=
    if limits.quiet ≠ 0 then none
    else if limits.stdoutErrors ≠ 0 then some .stdout else some .stderr
  if env.openMasterPty = false ∨ env.pipeErr ≠ 0 ∨ (limits.binaryInput ≠ 0 ∧ env.pipeIn ≠ 0) then
    MainResult.early (.returned SETUP_ERR) [] 0
  else if limits.user ≠ [] then
    match FindRogues 0 limits.user env.preRogues with
    | .exited code => MainResult.early (.exited code) [] 0
    | .returned _ =>
      if limits.userMutex ≠ 0 ∧ (env.lockFd < 0 ∨ env.flock ≠ 0) then
        printAndReturn reportStr "User already in use\n" BAD_USER
      else mainFork limits reportStr env
  else if env.geteuid = 0 then
    printAndReturn reportStr "User required when running as root\n" BAD_USER
  else mainFork limits reportStr env

/-! ## ProcessArgs (lines 195-248) -/

/-- The C library's `isspace` in the "C" locale. -/
def isspace (c : Char) : Bool :=
  c = ' ' || c = '\t' || c = '\n' || c = '\r' || c.toNat = 11 || c.toNat = 12

/-- The digits at the start of a text, read as a decimal number on top of `acc`. -/
def atoiDigits : List Char → Int → Int
  | [], acc => acc
  | c :: cs, acc =>
    if '0' ≤ c ∧ c ≤ '9' then atoiDigits cs (acc * 10 + ((c.toNat : Int) - 48)) else acc

/-- The C library's `atoi`: white space, an optional sign, then decimal digits
up to the first other character.  C leaves the result undefined when the value
does not fit an `int`; this definition reduces it to 32 bits.  `ProcessArgs`
below takes the conversion as a parameter, and this is the one the sample runs
use. -/
def atoi (s : List Char) : Int :=
  match s.dropWhile isspace with
  | '-' :: r => wrap32 (-(atoiDigits r 0))
  | '+' :: r => wrap32 (atoiDigits r 0)
  | r => wrap32 (atoiDigits r 0)

/-- Row `i` of the `mount` array overwritten with `s`.  Rows past the end of
the list are empty strings. -/
def setRow (rows : List (List Char)) (i : Nat) (s : List Char) : List (List Char) :=
  (rows.take i ++ List.replicate (i - rows.length) []) ++ [s] ++ rows.drop (i + 1)

/-- The body of the `while` loop (lines 200-241) for an argument whose first
character is '-': `body` is the text after the '-', `mountNdx` the local
counter.  `flag` is the character after the '-', which is the terminating zero
when there is none, and `value` the text after the flag. -/
def applyFlag (atoi : List Char → Int) (body : List Char) (lims : RunLimits) (mountNdx : Nat) :
    RunLimits × Nat :=
  let flag : Char := body.headD (Char.ofNat 0)
  let value : List Char := body.drop 1
  if flag = 'p' then
    let n := atoi value
    ({ lims with maxProcs := if n < 1 then 1 else if n > MAX_PROCS then MAX_PROCS else n },
      mountNdx)
  else if flag = 'o' then ({ lims with maxOutput := atoi value }, mountNdx)
  else if flag = 'T' then ({ lims with maxMsRuntime := atoi value }, mountNdx)
  else if flag = 't' then ({ lims with maxMsCPU := atoi value }, mountNdx)
  else if flag = 's' then ({ lims with maxMem := atoi value }, mountNdx)
  else if flag = 'f' then ({ lims with allowFiles := if atoi value > 0 then 1 else 0 }, mountNdx)
  else if flag = 'r' then ({ lims with chrootJail := 1 }, mountNdx)
  else if flag = 'n' then ({ lims with unshareNetwork := 1 }, mountNdx)
  else if flag = 'u' then ({ lims with user := value.take USR_NAME_LEN }, mountNdx)
  else if flag = 'd' ∧ mountNdx < MAX_MOUNTS then
    ({ lims with mount := setRow lims.mount mountNdx (value.take PATH_MAX) }, mountNdx + 1)
  else if flag = 'i' then
    if value ≠ [] then ({ lims with unreadInputAllowed := atoi value }, mountNdx)
    else ({ lims with unreadInputAllowed := -1 }, mountNdx)
  else if flag = 'b' then ({ lims with binaryInput := 1 }, mountNdx)
  else if flag = 'm' then ({ lims with stdoutErrors := 1 }, mountNdx)
  else if flag = 'q' then ({ lims with quiet := 1 }, mountNdx)
  else if flag = 'x' then ({ lims with userMutex := 1 }, mountNdx)
  else (lims, mountNdx)

/-- The `while` loop of `ProcessArgs`, line 199, over the arguments after the
program name: the arguments from `*argv` on when the loop ends, the limits and
`mountNdx`. -/
def argsLoop (atoi : List Char → Int) :
    List (List Char) → RunLimits → Nat → List (List Char) × RunLimits × Nat
  | [], lims, mountNdx => ([], lims, mountNdx)
  | arg :: rest, lims, mountNdx =>
    match arg with
    | '-' :: body =>
      argsLoop atoi rest (applyFlag atoi body lims mountNdx).1 (applyFlag atoi body lims mountNdx).2
    | _ => (arg :: rest, lims, mountNdx)

/-- What `ProcessArgs` leaves: the vector `*argv` points at, which `main`
hands to `DoChild` and `DoChild` to `execvp` (lines 503 and 432), the limits,
and whether the usage line was printed. -/
structure ArgsResult where
  argv : List (List Char)
  lims : RunLimits
  usage : Bool

/-- `ProcessArgs` on the arguments after the program name. -/
def ProcessArgs (atoi : List Char → Int) (args : List (List Char)) (lims : RunLimits) :
    ArgsResult :=
  let r := argsLoop atoi args lims 0
  { argv := r.1
    lims := { r.2.1 with mount := setRow r.2.1.mount r.2.2 [] }
    usage := r.1.isEmpty }

/-- Whether an argument begins with '-'. -/
def isFlagArg (arg : List Char) : Bool := arg.head? = some '-'

/-- The text after `-c` when the argument begins with '-' followed by `c`. -/
def flagValue (c : Char) (arg : List Char) : Option (List Char) :=
  match arg with
  | '-' :: f :: value => if f = c then some value else none
  | _ => none

/-- The paths of the `-d` flags among the leading flag arguments, in
command-line order. -/
def dPaths (args : List (List Char)) : List (List Char) :=
  (args.takeWhile isFlagArg).filterMap (flagValue 'd')

/-- The text of the last `-p` flag among the leading flag arguments. -/
def lastP (args : List (List Char)) : Option (List Char) :=
  ((args.takeWhile isFlagArg).filterMap (flagValue 'p')).getLast?

/-- The entries of the `mount` array before the first empty string: the
sources the loop of lines 388-394 iterates over. -/
def mountSources (rows : List (List Char)) : List (List Char) :=
  rows.takeWhile (fun r => r ≠ [])

/-- The first `i` rows of the `mount` array. -/
def firstRows (rows : List (List Char)) (i : Nat) : List (List Char) :=
  rows.take i ++ List.replicate (i - rows.length) []

/-! ## MakePath (lines 341-355) -/

/-- Value of `EEXIST` in the Linux `<errno.h>`. -/
def EEXIST : Int := 17

/-- The C string held in a buffer: the characters before the first zero. -/
def cstr (buf : List Char) : List Char := buf.takeWhile (fun c => c ≠ Char.ofNat 0)

/-- What `MakePath` leaves: the `mkdir(path, mode)` calls in order, the
returned value, and the content of the buffer `path` on return. -/
structure PathRun where
  calls : List (List Char × Int)
  result : Int
  path : List Char

/-- The `for` loop and the final `mkdir` of `MakePath`.  The buffer is
`pre ++ rest` with the scan for the next '/' standing at `rest`; `mkdir`
gives the returned value and `errno` of a call.  At a '/' the source writes a
zero over it, calls `mkdir` on the buffer, and writes the '/' back. -/
def makePathLoop (mkdir : List Char → Int → Int × Int) (mode : Int) :
    List Char → List Char → List (List Char × Int) → PathRun
  | pre, [], calls =>
    if (mkdir (cstr pre) mode).1 ≠ 0 ∧ (mkdir (cstr pre) mode).2 ≠ EEXIST then
      ⟨calls ++ [(cstr pre, mode)], -1, pre⟩
    else ⟨calls ++ [(cstr pre, mode)], 0, pre⟩
  | pre, c :: rest, calls =>
    if c = '/' then
      let zeroed := pre ++ Char.ofNat 0 :: rest
      if (mkdir (cstr zeroed) mode).1 ≠ 0 ∧ (mkdir (cstr zeroed) mode).2 ≠ EEXIST then
        ⟨calls ++ [(cstr zeroed, mode)], -1, pre ++ '/' :: rest⟩
      else makePathLoop mkdir mode (pre ++ ['/']) rest (calls ++ [(cstr zeroed, mode)])
    else makePathLoop mkdir mode (pre ++ [c]) rest calls

/-- `MakePath(path, mode)`. -/
def MakePath (mkdir : List Char → Int → Int × Int) (path : List Char) (mode : Int) : PathRun :=
  makePathLoop mkdir mode [] path []

/-- The prefixes of a path that end just before a '/', by increasing length. -/
def slashPrefixes (path : List Char) : List (List Char) :=
  ((List.range path.length).filter (fun i => path.get? i = some '/')).map
    (fun i => path.take i)

/-- A list up to and including its first element that fails `ok`. -/
def throughFirstFailure {α : Type} (ok : α → Bool) : List α → List α
  | [] => []
  | a :: l => if ok a then a :: throughFirstFailure ok l else [a]

/-- Whether `mkdir` on a path with mode `mode` succeeds or fails with `EEXIST`. -/
def mkdirOk (mkdir : List Char → Int → Int × Int) (mode : Int) (q : List Char) : Bool :=
  (mkdir q mode).1 == 0 || (mkdir q mode).2 == EEXIST

/-- The prefixes `pre ++ p` for the prefixes `p` of `rest` that end just
before a '/'. -/
def slashPrefixesFrom (pre rest : List Char) : List (List Char) :=
  ((List.range rest.length).filter (fun i => rest.get? i = some '/')).map
    (fun i => pre ++ rest.take i)

/-! ## PumpInput (lines 115-169) -/

/-- The byte `'\04'`. -/
def eofChr : Byte := 4

/-- One pass of the `do ... while` loop: `idle` when `select` returns 0,
`failed` when it returns -1, `read buf` when it returns 1 and `read` delivers
`buf` (an empty buffer is the read that returns 0).  `go` is the value of
`ip->go` at the loop test of that pass.  A `read` that fails is not modelled. -/
inductive InEvent where
  | idle (go : Bool)
  | failed (go : Bool)
  | read (buf : List Byte) (go : Bool)
  deriving DecidableEq, Repr

/-- What `PumpInput` does to `ip->outFd`. -/
inductive InAct where
  | write (bytes : List Byte)
  | close
  deriving DecidableEq, Repr

/-- The `do ... while` loop, lines 124-136: `charsRead`, `atStart` and the
writes made when the loop ends.  When the events run out, the next `read`
returns 0. -/
def inputLoop : List InEvent → Int → Bool → List InAct → Int × Bool × List InAct
  | [], _, atStart, acts => (0, atStart, acts)
  | .idle go :: rest, charsRead, atStart, acts =>
    if go then inputLoop rest charsRead atStart acts else (charsRead, atStart, acts)
  | .failed go :: rest, charsRead, atStart, acts =>
    if go ∧ charsRead > 0 then inputLoop rest charsRead atStart acts
    else (charsRead, atStart, acts)
  | .read buf go :: rest, _, atStart, acts =>
    let charsRead : Int := buf.length
    if charsRead ≠ 0 then
      let atStart := buf.getLast? == some 10
      let acts := acts ++ [.write buf]
      if go ∧ charsRead > 0 then inputLoop rest charsRead atStart acts
      else (charsRead, atStart, acts)
    else (charsRead, atStart, acts)

/-- The loop of lines 155-159: one entry for each `sem_trywait` that fails,
saying whether `poll` found the endpoint writable; after them `sem_trywait`
succeeds. -/
def eotLoop : List Bool → List InAct → List InAct
  | [], acts => acts
  | writable :: rest, acts =>
    eotLoop rest (if writable then acts ++ [.write [eofChr]] else acts)

/-- `PumpInput`: the writes to `ip->outFd` and its close, in order. -/
def PumpInput (isPty : Int) (events : List InEvent) (spins : List Bool) : List InAct :=
  let r := inputLoop events 0 true []
  let charsRead := r.1
  let atStart := r.2.1
  let acts := r.2.2
  let acts :=
    if isPty ≠ 0 then
      (if charsRead = 0 then
        eotLoop spins (if !atStart then acts ++ [.write [eofChr]] else acts)
      else acts) ++ [.write [eofChr]]
    else acts
  acts ++ [.close]

/-- The buffers the reads of a list of events deliver. -/
def chunksOf (events : List InEvent) : List (List Byte) :=
  events.filterMap (fun e => match e with
    | .read buf _ => some buf
    | _ => none)

/-- Events before end of file with `go` still true: `select` timing out, or a
read of a non-empty buffer. -/
def feeding (e : InEvent) : Prop :=
  e = .idle true ∨ ∃ buf, buf ≠ [] ∧ e = .read buf true

/-- The value of `atStart` after the reads of `chunks`, from the value `a`. -/
def atStartAfter : List (List Byte) → Bool → Bool
  | [], a => a
  | c :: cs, _ => atStartAfter cs (c.getLast? == some 10)

/-! ## ChownContents (lines 312-336) -/

/-- The owner-read and owner-write bits, `S_IRUSR | S_IWUSR`. -/
def S_IRWUSR : Nat := 0o600

/-- A file-system object: a directory with its entries as `readdir` yields
them, apart from "." and "..", or anything else.  Each carries its owner and
permission bits. -/
inductive Node where
  | file (owner : Int) (mode : Nat)
  | dir (owner : Int) (mode : Nat) (entries : List (List Char × Node))

/-- The system calls of `ChownContents` that can fail. -/
inductive Syscall where
  | lchown
  | lstat
  | chmod
  | opendir
  deriving DecidableEq, Repr

/-- The test of lines 326-327 on an entry name: the first character is '.'
and the second is the terminating zero or '.'. -/
def skipsName (name : List Char) : Bool :=
  name.head? = some '.' && (name.tail.head? = none || name.tail.head? = some '.')

/-- The path `snprintf(sub_path, PATH_MAX+1, "%s/%s", path, name)` writes. -/
def subPath (path name : List Char) : List Char := (path ++ '/' :: name).take PATH_MAX

mutual
/-- `ChownContents(path, uid)` on the object at `path`: the returned value and
the object afterwards.  `sys c p` says whether the call `c` on path `p`
succeeds. -/
def ChownContents (sys : Syscall → List Char → Bool) (uid : Int) :
    List Char → Node → Int × Node
  | path, .file owner mode =>
    if sys .lchown path = false then (-1, .file owner mode)
    else if sys .lstat path = false ∨ sys .chmod path = false then (-1, .file uid mode)
    else (0, .file uid (mode ||| S_IRWUSR))
  | path, .dir owner mode entries =>
    if sys .lchown path = false then (-1, .dir owner mode entries)
    else if sys .lstat path = false ∨ sys .chmod path = false then (-1, .dir uid mode entries)
    else if sys .opendir path = false then (-1, .dir uid (mode ||| S_IRWUSR) entries)
    else
      ((chownEntries sys uid path entries).1,
        .dir uid (mode ||| S_IRWUSR) (chownEntries sys uid path entries).2)
/-- The `readdir` loop of lines 325-332 over the entries of the directory at
`path`. -/
def chownEntries (sys : Syscall → List Char → Bool) (uid : Int) (path : List Char) :
    List (List Char × Node) → Int × List (List Char × Node)
  | [] => (0, [])
  | (name, node) :: rest =>
    if skipsName name then
      ((chownEntries sys uid path rest).1, (name, node) :: (chownEntries sys uid path rest).2)
    else if (ChownContents sys uid (subPath path name) node).1 ≠ 0 then
      (-1, (name, (ChownContents sys uid (subPath path name) node).2) :: rest)
    else
      ((chownEntries sys uid path rest).1,
        (name, (ChownContents sys uid (subPath path name) node).2)
          :: (chownEntries sys uid path rest).2)
end

mutual
/-- Whether an object and everything beneath it is owned by `uid` with the
owner-read and owner-write bits set. -/
def ownedBy (uid : Int) : Node → Bool
  | .file owner mode => owner == uid && mode &&& S_IRWUSR == S_IRWUSR
  | .dir owner mode entries =>
    owner == uid && mode &&& S_IRWUSR == S_IRWUSR && entriesOwnedBy uid entries
/-- Whether every entry of a list, at any depth, is owned by `uid` with the
owner-read and owner-write bits set. -/
def entriesOwnedBy (uid : Int) : List (List Char × Node) → Bool
  | [] => true
  | (_, node) :: rest => ownedBy uid node && entriesOwnedBy uid rest
end

mutual
/-- Whether no entry name in or beneath an object passes the test of lines
326-327. -/
def noSkips : Node → Bool
  | .file _ _ => true
  | .dir _ _ entries => entriesNoSkips entries
/-- Whether no name in or beneath a list of entries passes the test of lines
326-327. -/
def entriesNoSkips : List (List Char × Node) → Bool
  | [] => true
  | (name, node) :: rest => !skipsName name && noSkips node && entriesNoSkips rest
end

/-- The character of the decimal digit `d`. -/
def digitChar (d : Nat) : Char := Char.ofNat (48 + d)

/-- The number written by a list of decimal digits, most significant first,
on top of `acc`. -/
def decimalValue (ds : List Nat) (acc : Int) : Int :=
  ds.foldl (fun a d => a * 10 + (d : Int)) acc

/-! ## Sample runs -/

/-- No user entry to look up, and the kill of the session fails. -/
def quietRogues : RoguesEnv :=
  { getpwnam := none, setpriority := 0, fork := 4243, helperSetuid := 0, helperKill := -1,
    sessionKill := -1 }

/-- The user "sb" exists and the helper is forked, but the helper's `setuid`
fails; the kill of the session fails too. -/
def setuidFailsRogues : RoguesEnv :=
  { getpwnam := some 1001, setpriority := 0, fork := 4243, helperSetuid := -1,
    helperKill := -1, sessionKill := -1 }

/-- The child `child` is found ended with wait status `status` at the first
poll; no rogue, no CPU time used, no unread input, no output. -/
def calmParent (child status : Int) : ParentEnv :=
  { mPty := 3, errPipe0 := 4, wInit := 0, intrAt := fun _ => false,
    pollW := fun _ => child, pollStatus := fun _ => status, killW := child, killStatus := 9,
    intrFinal := false, strsignal := fun _ => "Killed", rogues := quietRogues,
    selfUsage := ⟨0, 0, 0, 0⟩, childUsage := ⟨0, 0, 0, 0⟩, mopReads := [], outReads := [],
    errReads := [] }

/-- The child `child` is still running at every poll; after `SIGKILL` the
blocking wait returns its pid with status 9 (killed by signal 9). -/
def sleepyParent (child : Int) : ParentEnv :=
  { calmParent child 0 with pollW := fun _ => 0 }

/-- The child writes the 20 bytes "y\n" ten times in two reads and exits 0. -/
def chattyParent (child : Int) : ParentEnv :=
  { calmParent child 0 with
    outReads := [List.replicate 8 [121, 10], List.replicate 2 [121, 10]].map List.flatten }

/-- Every call of child setup succeeds. -/
def smoothChild : ChildEnv :=
  { getpwnam := some 1001, ChownContents := 0, unshare := fun _ => 0, MakePath := fun _ => 0,
    mount := fun _ _ => 0, chroot := 0, setuid := 0, setrlimit := fun _ _ => 0,
    execOk := true }

/-- The supervisor runs as root (effective uid 0); every setup call succeeds. -/
def rootEnv : MainEnv :=
  { openMasterPty := true, pipeErr := 0, pipeIn := 0, preRogues := quietRogues, lockFd := 5,
    flock := 0, geteuid := 0, fork := 4242, childEnv := smoothChild,
    parentEnv := calmParent 4242 0 }

/-- A `mkdir` under which "usr" exists already and every other directory can
be created. -/
def usrExists (q : List Char) (_mode : Int) : Int × Int :=
  if q = ['u', 's', 'r'] then (-1, EEXIST) else (0, 0)

/-- Every call succeeds. -/
def allCallsOk (_c : Syscall) (_p : List Char) : Bool := true

/-- A directory owned by root that holds the files "a" and "..x" and the
directory "sub" with the file "b", all owned by root with mode 0. -/
def dottedTree : Node :=
  .dir 0 0o755
    [(['a'], .file 0 0), (['.', '.', 'x'], .file 0 0), (['s', 'u', 'b'], .dir 0 0 [(['b'], .file 0 0)])]

end SafeRun

namespace SafeRun

/-! ## Arithmetic helpers -/

theorem two_pow_31 : (2 : Int) ^ 31 = 2147483648 := by norm_num

theorem wrap32_of_range (x : Int) (h0 : -2147483648 ≤ x) (h1 : x < 2147483648) :
    wrap32 x = x := by
  unfold wrap32
  norm_num
  omega

theorem lor_192_small (p : Int) (h0 : 0 ≤ p) (h63 : p ≤ 63) : 192 + p = Int.lor 192 p := by
  interval_cases p <;> rfl

/-! ## ShowCode -/

/-- C5: `ShowCode` returns `IHSError` when it is nonzero; otherwise, when
`progErrors` (in 0..63) is nonzero, the bitwise or of 192 and `progErrors`,
which is then the same number as the sum 192 + `progErrors`; otherwise
`status`. -/
theorem ShowCode_cases (reportStr : Option Stream) (IHSError progErrors status : Int)
    (h0 : 0 ≤ progErrors) (h63 : progErrors ≤ 63) :
    (ShowCode reportStr IHSError progErrors status).2 =
        (if IHSError ≠ 0 then IHSError
         else if progErrors ≠ 0 then Int.lor 192 progErrors else status)
      ∧ 192 + progErrors = Int.lor 192 progErrors := by
  have hl := lor_192_small progErrors h0 h63
  refine ⟨?_, hl⟩
  unfold ShowCode
  by_cases hI : IHSError ≠ 0
  · simp [hI]
  · by_cases hp : progErrors ≠ 0
    · have hw : wrap32 (APP_FAILURE_BASE + progErrors) = 192 + progErrors := by
        apply wrap32_of_range <;> simp only [APP_FAILURE_BASE] <;> omega
      rw [if_neg hI, if_pos hp, if_neg hI, if_pos hp, hw, hl]
    · by_cases hs : status ≠ 0 <;> simp [hI, hp, hs]

theorem ShowCode_cases_witness :
    (ShowCode none 0 5 7).2 =
        (if (0 : Int) ≠ 0 then 0 else if (5 : Int) ≠ 0 then Int.lor 192 5 else 7)
      ∧ 192 + 5 = Int.lor 192 5 :=
  ShowCode_cases none 0 5 7 (by decide) (by decide)

/-! ## PumpOutput -/

theorem pumpLoop_spec (reads : List (List Byte)) :
    ∀ (a r : Int) (sink : List Byte), (∀ b ∈ reads, b ≠ []) → 0 ≤ a → a < 2147483648 → 0 ≤ r →
      r + (reads.flatten.length : Int) < 2147483648 →
      pumpLoop reads a r sink =
        (max (a - (reads.flatten.length : Int)) 0, r + (reads.flatten.length : Int),
          sink ++ reads.flatten.take a.toNat) := by
  induction reads with
  | nil =>
    intro a r sink _ ha _ _ _
    simp [pumpLoop, ha]
  | cons buf rest ih =>
    intro a r sink hne ha ha' hr hsum
    have hbuf : buf ≠ [] := hne buf (List.mem_cons_self _ _)
    have hlen : 0 < buf.length := List.length_pos.mpr hbuf
    have hrest : ∀ b ∈ rest, b ≠ [] := fun b hb => hne b (List.mem_cons_of_mem _ hb)
    rw [List.flatten_cons, List.length_append, Nat.cast_add] at hsum
    rw [List.flatten_cons, List.length_append, Nat.cast_add]
    have hr' : wrap32 (r + (buf.length : Int)) = r + (buf.length : Int) := by
      apply wrap32_of_range <;> omega
    have hpos : (0 : Int) < (buf.length : Int) := by exact_mod_cast hlen
    unfold pumpLoop
    simp only [hpos, if_true, hr']
    by_cases hlt : a < (buf.length : Int)
    · simp only [hlt, if_true]
      have htake : (buf ++ rest.flatten).take a.toNat = buf.take a.toNat := by
        apply List.take_append_of_le_length
        omega
      by_cases hz : a > 0
      · simp only [hz, if_true]
        have hw : wrap32 (a - a) = 0 := by
          rw [sub_self]
          exact wrap32_of_range 0 (by norm_num) (by norm_num)
        rw [hw, ih 0 _ _ hrest (le_refl _) (by norm_num) (by omega) (by omega)]
        simp only [htake, Int.toNat_zero, List.take_zero, List.append_nil, Prod.mk.injEq,
          and_true]
        refine ⟨?_, by omega⟩
        rw [max_eq_right (by omega), max_eq_right (by omega)]
      · simp only [hz, if_false]
        have ha0 : a = 0 := by omega
        subst ha0
        rw [ih 0 _ _ hrest (le_refl _) (by norm_num) (by omega) (by omega)]
        simp only [Int.toNat_zero, List.take_zero, List.append_nil, Prod.mk.injEq,
          and_true]
        refine ⟨?_, by omega⟩
        rw [max_eq_right (by omega), max_eq_right (by omega)]
    · simp only [hlt, if_false, gt_iff_lt, hpos, if_true]
      have hw : wrap32 (a - (buf.length : Int)) = a - (buf.length : Int) := by
        apply wrap32_of_range <;> omega
      rw [hw, ih _ _ _ hrest (by omega) (by omega) (by omega) (by omega)]
      have h1 : List.take (buf.length : Int).toNat buf = buf := by
        simp
      have h2 : (buf ++ rest.flatten).take a.toNat
          = buf ++ rest.flatten.take (a - (buf.length : Int)).toNat := by
        rw [List.take_append_eq_append_take]
        have e1 : List.take a.toNat buf = buf := List.take_of_length_le (by omega)
        have e2 : a.toNat - buf.length = (a - (buf.length : Int)).toNat := by omega
        rw [e1, e2]
      rw [h1, h2, List.append_assoc]
      simp only [Prod.mk.injEq, and_true]
      refine ⟨?_, by omega⟩
      congr 1
      omega

/-- C6: with a budget `B ≥ 0` and non-empty chunks of total length `P < 2^31`,
`PumpOutput` writes the first `min B P` bytes of the concatenated chunks, in
order, followed by the text "... and (P-B) dropped bytes\n" exactly when
`P > B`; it leaves `bytesRead = P` and `status = OUTPUT_OVERRUN` when `P > B`,
else 0. -/
theorem PumpOutput_spec (op : OutputParams) (reads : List (List Byte))
    (hB : 0 ≤ op.byteLimit) (hB' : op.byteLimit < 2 ^ 31)
    (hne : ∀ b ∈ reads, b ≠ []) (hP : (reads.flatten.length : Int) < 2 ^ 31) :
    (PumpOutput op reads).2 =
        reads.flatten.take (min op.byteLimit (reads.flatten.length : Int)).toNat
          ++ (if (reads.flatten.length : Int) > op.byteLimit
              then droppedText ((reads.flatten.length : Int) - op.byteLimit) else [])
      ∧ (PumpOutput op reads).1.bytesRead = (reads.flatten.length : Int)
      ∧ (PumpOutput op reads).1.status =
          (if (reads.flatten.length : Int) > op.byteLimit then OUTPUT_OVERRUN else 0) := by
  rw [two_pow_31] at hB' hP
  have hloop := pumpLoop_spec reads op.byteLimit 0 [] hne hB hB' (le_refl _) (by omega)
  have htake : reads.flatten.take (min op.byteLimit (reads.flatten.length : Int)).toNat
      = reads.flatten.take op.byteLimit.toNat := by
    by_cases hle : op.byteLimit ≤ (reads.flatten.length : Int)
    · rw [min_eq_left hle]
    · rw [min_eq_right (by omega), List.take_of_length_le (by omega),
        List.take_of_length_le (by omega)]
  have hw : wrap32 ((reads.flatten.length : Int) - op.byteLimit)
      = (reads.flatten.length : Int) - op.byteLimit := by
    apply wrap32_of_range <;> omega
  unfold PumpOutput
  rw [hloop, htake]
  by_cases hgt : (reads.flatten.length : Int) > op.byteLimit
  · have hgt' : 0 + (reads.flatten.length : Int) > op.byteLimit := by omega
    simp only [if_pos hgt, if_pos hgt', zero_add, hw, List.nil_append, and_self]
  · have hgt' : ¬ 0 + (reads.flatten.length : Int) > op.byteLimit := by omega
    simp only [if_neg hgt, if_neg hgt', zero_add, List.nil_append, List.append_nil, and_self]

theorem PumpOutput_spec_witness :
    (PumpOutput ⟨1, 0, 3, 0, 0, none⟩ [[104, 105], [106, 107]]).2 =
        [[104, 105], [106, 107]].flatten.take
            (min (3 : Int) (([[104, 105], [106, 107]] : List (List Byte)).flatten.length : Int)).toNat
          ++ (if (([[104, 105], [106, 107]] : List (List Byte)).flatten.length : Int) > 3
              then droppedText
                ((([[104, 105], [106, 107]] : List (List Byte)).flatten.length : Int) - 3)
              else [])
      ∧ (PumpOutput ⟨1, 0, 3, 0, 0, none⟩ [[104, 105], [106, 107]]).1.bytesRead =
          (([[104, 105], [106, 107]] : List (List Byte)).flatten.length : Int)
      ∧ (PumpOutput ⟨1, 0, 3, 0, 0, none⟩ [[104, 105], [106, 107]]).1.status =
          (if (([[104, 105], [106, 107]] : List (List Byte)).flatten.length : Int) > 3
            then OUTPUT_OVERRUN else 0) :=
  PumpOutput_spec ⟨1, 0, 3, 0, 0, none⟩ [[104, 105], [106, 107]] (by decide) (by decide)
    (by decide) (by decide)

/-! ## MopUpInput -/

theorem FindRogues_nonzero_iff (ssid : Int) (user : List Char) (env : RoguesEnv)
    (diag : List String) (rogues : Int)
    (h : FindRogues ssid user env = .returned (diag, rogues)) :
    rogues ≠ 0 ↔
      ((user ≠ [] ∧ env.getpwnam.isSome ∧ env.setpriority = 0 ∧ 0 < env.fork
          ∧ (env.helperSetuid ≠ 0 ∨ env.helperKill = 0))
        ∨ (ssid ≠ 0 ∧ env.sessionKill = 0)) := by
  unfold FindRogues at h
  by_cases hs : ssid ≠ 0 <;> by_cases hk : env.sessionKill = 0 <;>
    by_cases hu : (user ≠ [] ∧ env.getpwnam.isSome ∧ env.setpriority = 0) <;>
    by_cases hf0 : env.fork = 0 <;> by_cases hf : env.fork > 0 <;>
    by_cases hsu : env.helperSetuid = 0 <;> by_cases hhk : env.helperKill = 0 <;>
    simp [hs, hk, hu, hf0, hf, hsu, hhk, helperExit, exitStatus, WIFEXITED, WEXITSTATUS,
      WTERMSIG] at h <;>
    obtain ⟨_, rfl⟩ := h <;>
    simp [hs, hk, hf, hsu, hhk] <;>
    tauto

/-- C9: at the failing input: the user "sb" is found, its priority lowered and
the helper forked, the helper fails to switch to the sandbox uid, and the kill
sent to the negated session id 77 fails; `FindRogues` returns 1, not 0. -/
theorem FindRogues_setuid_failure_counts :
    FindRogues 77 ['s', 'b'] setuidFailsRogues = .returned ([], 1)
      ∧ setuidFailsRogues.helperSetuid ≠ 0 ∧ setuidFailsRogues.sessionKill ≠ 0
      ∧ helperExit setuidFailsRogues = -1
      ∧ WEXITSTATUS (exitStatus (helperExit setuidFailsRogues)) = 255 := by
  decide

/-! ## main: the refusal to run as root -/

theorem main_root_without_user (limits : RunLimits) (env : MainEnv)
    (hu : limits.user = []) (hpty : env.openMasterPty = true) (hpipe : env.pipeErr = 0)
    (hin : limits.binaryInput = 0 ∨ env.pipeIn = 0) (he : env.geteuid = 0) :
    (limits.quiet = 0 →
        (main limits env).outcome = .returned BAD_USER ∧ (main limits env).forks = 0
          ∧ (main limits env).report = ["User required when running as root\n"])
      ∧ (limits.quiet ≠ 0 → (main limits env).outcome = .fault) := by
  have hsetup : ¬ (env.openMasterPty = false ∨ env.pipeErr ≠ 0
      ∨ (limits.binaryInput ≠ 0 ∧ env.pipeIn ≠ 0)) := by
    rintro (h | h | ⟨h1, h2⟩)
    · rw [hpty] at h
      exact Bool.noConfusion h
    · exact h hpipe
    · rcases hin with h | h
      · exact h1 h
      · exact h2 h
  have hu' : ¬ limits.user ≠ [] := fun h => h hu
  constructor
  · intro hq
    have hq' : ¬ limits.quiet ≠ 0 := fun h => h hq
    unfold main
    simp only [if_neg hsetup, if_neg hu', if_pos he, if_neg hq']
    by_cases hm : limits.stdoutErrors ≠ 0
    · simp only [if_pos hm, printAndReturn, MainResult.early, and_self]
    · simp only [if_neg hm, printAndReturn, MainResult.early, and_self]
  · intro hq
    unfold main
    simp only [if_neg hsetup, if_neg hu', if_pos he, if_pos hq, printAndReturn,
      MainResult.early]

/-- C10: at the failing input: default limits with `quiet` set and no sandbox
user, effective uid 0.  `main` passes the null report stream to `fprintf`
and faults instead of returning `BAD_USER`; without `quiet` it returns
`BAD_USER` (185) with one report line and without having forked. -/
theorem main_quiet_root_faults :
    (main { defaultLimits with quiet := 1 } rootEnv).outcome = .fault
      ∧ (main { defaultLimits with quiet := 1 } rootEnv).outcome ≠ .returned BAD_USER
      ∧ (main defaultLimits rootEnv).outcome = .returned 185
      ∧ (main defaultLimits rootEnv).forks = 0 := by
  decide

/-! ## main: the parent path -/

theorem pollLoop_fuel_mono (env : ParentEnv) (maxMs child : Int) (extra : Nat) (fuel : Nat) :
    ∀ (k : Nat) (elapsed w st : Int), maxMs - elapsed ≤ 20 * (fuel : Int) →
      pollLoop env maxMs child (fuel + extra) k elapsed w st
        = pollLoop env maxMs child fuel k elapsed w st := by
  induction fuel with
  | zero =>
    intro k elapsed w st h
    have hge : ¬ (elapsed < maxMs ∧ env.intrAt k = false) := fun hc => by
      have := hc.1
      simp only [Nat.cast_zero, mul_zero] at h
      omega
    cases extra with
    | zero => rfl
    | succ e =>
      rw [Nat.zero_add]
      unfold pollLoop
      rw [if_neg hge]
  | succ n ih =>
    intro k elapsed w st h
    have e : n + 1 + extra = (n + extra) + 1 := by omega
    rw [e]
    unfold pollLoop
    have hrec : maxMs - (elapsed + MS_CHECK_TIME) ≤ 20 * (n : Int) := by
      simp only [MS_CHECK_TIME]
      push_cast at h
      omega
    simp only [ih _ _ _ _ hrec]

/-- The bound `pollFuel` never cuts the poll loop short: any larger bound
gives the same result. -/
theorem pollLoop_fuel_enough (env : ParentEnv) (maxMs child : Int) (extra : Nat)
    (w st : Int) :
    pollLoop env maxMs child (pollFuel maxMs + extra) 0 0 w st
      = pollLoop env maxMs child (pollFuel maxMs) 0 0 w st := by
  apply pollLoop_fuel_mono
  unfold pollFuel
  push_cast
  omega

theorem pollLoop_ignores_output (env : ParentEnv) (xs ys : List (List Byte))
    (maxMs child : Int) (fuel : Nat) :
    ∀ (k : Nat) (elapsed w st : Int),
      pollLoop { env with outReads := xs, errReads := ys } maxMs child fuel k elapsed w st
        = pollLoop env maxMs child fuel k elapsed w st := by
  induction fuel with
  | zero => intro k elapsed w st; rfl
  | succ n ih =>
    intro k elapsed w st
    unfold pollLoop
    simp only [ih]

theorem parentPath_outcome_ignores_output (limits : RunLimits) (reportStr : Option Stream)
    (child : Int) (env : ParentEnv) (xs ys : List (List Byte)) :
    (parentPath limits reportStr child { env with outReads := xs, errReads := ys }).outcome
      = (parentPath limits reportStr child env).outcome := by
  unfold parentPath
  simp only [pollLoop_ignores_output]
  cases FindRogues child limits.user env.rogues with
  | exited code => rfl
  | returned r => rfl

/-- C1: at the failing input: output budget 10, the child writes 20 bytes to
stdout and exits with code 0, nothing else goes wrong.  The output pump ends
with `status = OUTPUT_OVERRUN` and `bytesRead = 20` and has written 10 bytes
and the dropped-bytes text, yet the supervisor returns 0, a code without the
0x2 bit. -/
theorem overrun_bit_missing :
    (parentPath { defaultLimits with maxOutput := 10 } (some .stderr) 4242
        (chattyParent 4242)).outcome = .returned 0
      ∧ (parentPath { defaultLimits with maxOutput := 10 } (some .stderr) 4242
          (chattyParent 4242)).outPrms.map (fun op => (op.status, op.bytesRead))
            = some (OUTPUT_OVERRUN, 20)
      ∧ (parentPath { defaultLimits with maxOutput := 10 } (some .stderr) 4242
          (chattyParent 4242)).out
            = [121, 10, 121, 10, 121, 10, 121, 10, 121, 10]
                ++ textBytes "... and 10 dropped bytes\n"
      ∧ (parentPath { defaultLimits with maxOutput := 10 } (some .stderr) 4242
          (chattyParent 4242)).report = [] := by
  decide

/-- When every poll finds the child still running, the poll loop ends with
`wResult = 0` as soon as it has run at least once. -/
theorem pollLoop_still_running (env : ParentEnv) (maxMs child : Int)
    (hrun : ∀ k, env.pollW k = 0) (fuel : Nat) :
    ∀ (k : Nat) (elapsed w st : Int),
      (w = 0 ∨ (elapsed < maxMs ∧ env.intrAt k = false ∧ 0 < fuel)) →
      (pollLoop env maxMs child fuel k elapsed w st).1 = 0 := by
  induction fuel with
  | zero =>
    intro k elapsed w st h
    rcases h with h | ⟨_, _, h⟩
    · exact h
    · exact absurd h (by decide)
  | succ n ih =>
    intro k elapsed w st h
    unfold pollLoop
    by_cases hc : elapsed < maxMs ∧ env.intrAt k = false
    · rw [if_pos hc]
      simp only [hrun k, if_true]
      exact ih _ _ _ _ (Or.inl rfl)
    · rw [if_neg hc]
      rcases h with h | ⟨h1, h2, _⟩
      · exact h
      · exact absurd ⟨h1, h2⟩ hc

theorem not_exited_of_signaled (s : Int) (h : WIFSIGNALED s = true) : WIFEXITED s = false := by
  unfold WIFSIGNALED at h
  unfold WIFEXITED
  simp only [Bool.and_eq_true, decide_eq_true_eq] at h
  simp only [beq_eq_false_iff_ne, ne_eq]
  omega

/-- C2 as amended: when the poll loop ends without having reaped the child
(`wResult` differs from the child's pid, which is positive), the blocking wait
after `SIGKILL` returns the child's pid with a killed-by-signal status, there is no interrupt,
no rogue is killed, the CPU usage is below `maxMsCPU` and no input is left
unread, the supervisor's exit code is 192 | TIMEOUT | RT_FAULT = 201: the
killed-by-signal status is classified as a runtime fault as well. -/
theorem wallclock_kill_code (limits : RunLimits) (reportStr : Option Stream) (child : Int)
    (env : ParentEnv) (hchild : 0 < child)
    (hloop : (pollLoop env limits.maxMsRuntime child (pollFuel limits.maxMsRuntime) 0 0
      env.wInit 0).1 ≠ child)
    (hkw : env.killW = child) (hsig : WIFSIGNALED env.killStatus = true)
    (hint : env.intrFinal = false)
    (hrog : ∃ diag, FindRogues child limits.user env.rogues = .returned (diag, 0))
    (hcpu : wrap32 (GetRealMs env.selfUsage + GetRealMs env.childUsage) < limits.maxMsCPU)
    (hmop : mopLoop env.mopReads 0 = 0) :
    (parentPath limits reportStr child env).outcome = .returned 201
      ∧ (201 : Int) = Int.lor 192 (Int.lor TIMEOUT RT_FAULT) := by
  refine ⟨?_, by decide⟩
  obtain ⟨diag, hrog⟩ := hrog
  have hex := not_exited_of_signaled _ hsig
  have hkpos : env.killW > 0 := by omega
  have hcpu' : ¬ limits.maxMsCPU ≤ wrap32 (GetRealMs env.selfUsage + GetRealMs env.childUsage) := by
    omega
  have hcls : ¬ (child ≠ 0 ∧ child ≠ child) := fun h => h.2 rfl
  have e1 : Int.lor (Int.lor 0 TIMEOUT) RT_FAULT = 9 := by decide
  have e2 : wrap32 (APP_FAILURE_BASE + 9) = 201 := by decide
  unfold parentPath
  simp only [hrog, hloop, ne_eq, not_false_eq_true, if_true, hkw, hchild, gt_iff_lt, classify,
    hint, Bool.false_eq_true, if_false, hcls, hex, Bool.not_false, e1, not_true_eq_false,
    hcpu', MopUpInput, hmop, false_and, ShowCode, e2]
  simp [e2]

theorem wallclock_kill_code_witness :
    (parentPath { defaultLimits with maxMsRuntime := 500 } (some .stderr) 4242
        (sleepyParent 4242)).outcome = .returned 201
      ∧ (201 : Int) = Int.lor 192 (Int.lor TIMEOUT RT_FAULT) :=
  wallclock_kill_code { defaultLimits with maxMsRuntime := 500 } (some .stderr) 4242
    (sleepyParent 4242) (by decide) (by decide) (by decide) (by decide) (by decide)
    ⟨[], by decide⟩ (by decide) (by decide)

/-- C2 refuted as stated: with `-T500` and a child that is still running at
every poll, killed by `SIGKILL` and reaped by the blocking wait, with no
interrupt, no rogue, no CPU overrun and no unread input, the exit code is 201
and not 193. -/
theorem wallclock_kill_not_193 :
    (pollLoop (sleepyParent 4242) 500 4242 (pollFuel 500) 0 0 0 0).1 = 0
      ∧ (sleepyParent 4242).killW = 4242
      ∧ WIFSIGNALED (sleepyParent 4242).killStatus = true
      ∧ (sleepyParent 4242).intrFinal = false
      ∧ FindRogues 4242 [] (sleepyParent 4242).rogues = .returned ([], 0)
      ∧ wrap32 (GetRealMs (sleepyParent 4242).selfUsage
          + GetRealMs (sleepyParent 4242).childUsage) < 2000
      ∧ mopLoop (sleepyParent 4242).mopReads 0 = 0
      ∧ (parentPath { defaultLimits with maxMsRuntime := 500 } (some .stderr) 4242
          (sleepyParent 4242)).outcome = .returned 201
      ∧ (parentPath { defaultLimits with maxMsRuntime := 500 } (some .stderr) 4242
          (sleepyParent 4242)).outcome ≠ .returned 193 := by
  decide

theorem WEXITSTATUS_range (s : Int) : 0 ≤ WEXITSTATUS s ∧ WEXITSTATUS s ≤ 255 := by
  unfold WEXITSTATUS
  omega

/-- C4: in a run that is not interrupted, whose poll loop reaps the child,
where the child exited normally with code `C` (always in 0..255) and no
application fault is detected (no kill for wallclock time, no rogue, CPU usage
below `maxMsCPU`, no unread-input fault), the supervisor returns `C` when
`C < 192` and 179 when `C ≥ 192`. -/
theorem normal_exit_code (limits : RunLimits) (reportStr : Option Stream) (child : Int)
    (env : ParentEnv) (hint : env.intrFinal = false)
    (hloop : (pollLoop env limits.maxMsRuntime child (pollFuel limits.maxMsRuntime) 0 0
      env.wInit 0).1 = child)
    (hexit : WIFEXITED (pollLoop env limits.maxMsRuntime child (pollFuel limits.maxMsRuntime)
      0 0 env.wInit 0).2 = true)
    (hrog : ∃ diag, FindRogues child limits.user env.rogues = .returned (diag, 0))
    (hcpu : wrap32 (GetRealMs env.selfUsage + GetRealMs env.childUsage) < limits.maxMsCPU)
    (hmop : (MopUpInput env.mopReads limits.unreadInputAllowed 0 reportStr).2 = 0) :
    (parentPath limits reportStr child env).outcome =
      .returned
        (if WEXITSTATUS (pollLoop env limits.maxMsRuntime child (pollFuel limits.maxMsRuntime)
            0 0 env.wInit 0).2 < 192
         then WEXITSTATUS (pollLoop env limits.maxMsRuntime child
            (pollFuel limits.maxMsRuntime) 0 0 env.wInit 0).2
         else 179) := by
  obtain ⟨diag, hrog⟩ := hrog
  have hcpu' : ¬ limits.maxMsCPU ≤ wrap32 (GetRealMs env.selfUsage + GetRealMs env.childUsage) := by
    omega
  have hcls : ¬ (child ≠ 0 ∧ child ≠ child) := fun h => h.2 rfl
  obtain ⟨hlo, hhi⟩ := WEXITSTATUS_range
    (pollLoop env limits.maxMsRuntime child (pollFuel limits.maxMsRuntime) 0 0 env.wInit 0).2
  unfold parentPath
  simp only [hrog, hloop, ne_eq, not_true_eq_false, if_false, classify, hint,
    Bool.false_eq_true, hcls, hexit, Bool.not_true, hcpu', hmop, and_false]
  generalize WEXITSTATUS
    (pollLoop env limits.maxMsRuntime child (pollFuel limits.maxMsRuntime) 0 0 env.wInit 0).2
    = C at hlo hhi ⊢
  by_cases h192 : C ≥ APP_FAILURE_BASE
  · have hC : ¬ C < 192 := by simp only [APP_FAILURE_BASE] at h192; omega
    simp only [if_pos h192, if_neg hC, ShowCode, IHS_ERROR]
    simp [hmop]
  · have hC : C < 192 := by simp only [APP_FAILURE_BASE] at h192; omega
    by_cases h180 : C ≥ IHS_ERROR
    · have hne : C ≠ 0 := by simp only [IHS_ERROR] at h180; omega
      simp only [if_neg h192, if_pos h180, if_pos hC, ShowCode]
      simp [hne]
    · simp only [if_neg h192, if_neg h180, if_pos hC, ShowCode]
      by_cases h0 : C ≠ 0
      · simp [h0, hmop]
      · simp [h0, hmop]

theorem normal_exit_code_witness :
    (parentPath defaultLimits (some .stderr) 4242 (calmParent 4242 (200 * 256))).outcome =
      .returned
        (if WEXITSTATUS (pollLoop (calmParent 4242 (200 * 256)) defaultLimits.maxMsRuntime 4242
            (pollFuel defaultLimits.maxMsRuntime) 0 0 (calmParent 4242 (200 * 256)).wInit 0).2
            < 192
         then WEXITSTATUS (pollLoop (calmParent 4242 (200 * 256)) defaultLimits.maxMsRuntime
            4242 (pollFuel defaultLimits.maxMsRuntime) 0 0
            (calmParent 4242 (200 * 256)).wInit 0).2
         else 179) :=
  normal_exit_code defaultLimits (some .stderr) 4242 (calmParent 4242 (200 * 256)) (by decide)
    (by decide) (by decide) ⟨[], by decide⟩ (by decide) (by decide)

/-! ## The range of the exit code -/

theorem lor_bit_range (p k : Int) (h0 : 0 ≤ p) (h1 : p < 32)
    (hk : k = TIMEOUT ∨ k = ROGUE_PROCS ∨ k = RT_FAULT ∨ k = UNREAD_INPUT) :
    0 < Int.lor p k ∧ Int.lor p k < 32 := by
  rcases hk with rfl | rfl | rfl | rfl <;> interval_cases p <;> decide

theorem lor_or_same_range (p q k : Int) (h0 : 0 ≤ p) (h1 : p < 32)
    (hk : k = TIMEOUT ∨ k = ROGUE_PROCS ∨ k = RT_FAULT ∨ k = UNREAD_INPUT)
    (hq : q = Int.lor p k ∨ q = p) : 0 ≤ q ∧ q < 32 ∧ (p ≠ 0 → q ≠ 0) := by
  obtain ⟨hl, hu⟩ := lor_bit_range p k h0 h1 hk
  rcases hq with rfl | rfl
  · exact ⟨by omega, hu, fun _ => by omega⟩
  · exact ⟨h0, h1, fun h => h⟩

theorem MopUpInput_cases (reads : List Int) (A p : Int) (reportStr : Option Stream) :
    (MopUpInput reads A p reportStr).2 = Int.lor p UNREAD_INPUT
      ∨ (MopUpInput reads A p reportStr).2 = p := by
  unfold MopUpInput
  simp only
  split
  · left; rfl
  · right; rfl

theorem classify_range (reportStr : Option Stream) (strsignal : Int → String)
    (interrupted : Bool) (wResult child status p : Int) (h0 : 0 ≤ p) (h1 : p < 32) :
    (0 ≤ (classify reportStr strsignal interrupted wResult child status p).progErrors
      ∧ (classify reportStr strsignal interrupted wResult child status p).progErrors < 32)
    ∧ ((180 ≤ (classify reportStr strsignal interrupted wResult child status p).IHSError
        ∧ (classify reportStr strsignal interrupted wResult child status p).IHSError ≤ 191)
      ∨ ((classify reportStr strsignal interrupted wResult child status p).IHSError = 0
        ∧ ((classify reportStr strsignal interrupted wResult child status p).progErrors ≠ 0
          ∨ (0 ≤ (classify reportStr strsignal interrupted wResult child status p).status
            ∧ (classify reportStr strsignal interrupted wResult child status p).status
              ≤ 179)))) := by
  obtain ⟨hl, hu⟩ := lor_bit_range p RT_FAULT h0 h1 (Or.inr (Or.inr (Or.inl rfl)))
  obtain ⟨hlo, hhi⟩ := WEXITSTATUS_range status
  unfold classify
  by_cases hi : interrupted = true
  · simp only [hi, if_true, INTERRUPTED]
    exact ⟨⟨h0, h1⟩, Or.inl ⟨by norm_num, by norm_num⟩⟩
  · simp only [hi, Bool.false_eq_true, if_false]
    by_cases hw : wResult ≠ 0 ∧ wResult ≠ child
    · simp only [if_pos hw, BAD_WAIT]
      exact ⟨⟨h0, h1⟩, Or.inl ⟨by norm_num, by norm_num⟩⟩
    · simp only [if_neg hw]
      by_cases he : (!WIFEXITED status) = true
      · simp only [if_pos he]
        exact ⟨⟨by omega, hu⟩, Or.inr ⟨trivial, Or.inl (by omega)⟩⟩
      · simp only [if_neg he]
        by_cases h192 : WEXITSTATUS status ≥ APP_FAILURE_BASE
        · simp only [if_pos h192, IHS_ERROR]
          exact ⟨⟨h0, h1⟩, Or.inr ⟨trivial, Or.inr ⟨by norm_num, by norm_num⟩⟩⟩
        · simp only [if_neg h192]
          simp only [APP_FAILURE_BASE] at h192
          by_cases h180 : WEXITSTATUS status ≥ IHS_ERROR
          · simp only [if_pos h180]
            simp only [IHS_ERROR] at h180
            exact ⟨⟨h0, h1⟩, Or.inl ⟨by omega, by omega⟩⟩
          · simp only [if_neg h180]
            simp only [IHS_ERROR] at h180
            exact ⟨⟨h0, h1⟩, Or.inr ⟨trivial, Or.inr ⟨hlo, by omega⟩⟩⟩

theorem ShowCode_range (reportStr : Option Stream) (I p s : Int) (h0 : 0 ≤ p) (h1 : p < 32)
    (hI : (180 ≤ I ∧ I ≤ 191) ∨ (I = 0 ∧ (p ≠ 0 ∨ (0 ≤ s ∧ s ≤ 179)))) :
    (0 ≤ (ShowCode reportStr I p s).2 ∧ (ShowCode reportStr I p s).2 ≤ 191)
      ∨ (192 ≤ (ShowCode reportStr I p s).2 ∧ (ShowCode reportStr I p s).2 ≤ 255) := by
  have hw : wrap32 (APP_FAILURE_BASE + p) = 192 + p := by
    apply wrap32_of_range <;> simp only [APP_FAILURE_BASE] <;> omega
  unfold ShowCode
  rcases hI with ⟨hlo, hhi⟩ | ⟨rfl, hrest⟩
  · have hne : I ≠ 0 := by omega
    rw [if_pos hne]
    exact Or.inl ⟨by omega, hhi⟩
  · rw [if_neg (by simp)]
    by_cases hp : p ≠ 0
    · rw [if_pos hp, hw]
      exact Or.inr ⟨by omega, by omega⟩
    · rw [if_neg hp]
      rcases hrest with h | ⟨hs0, hs1⟩
      · exact absurd h hp
      · by_cases hs : s ≠ 0
        · rw [if_pos hs]
          exact Or.inl ⟨hs0, by omega⟩
        · rw [if_neg hs]
          exact Or.inl ⟨hs0, by omega⟩

/-- C3 as amended: for every run of the parent path (every value of the
interrupted flag, every wait result and wait status, every combination of
faults) that returns, the exit code lies in {0..191} ∪ {192..255}: besides the
values of the original statement, 179 is returned for a child code ≥ 192
without fault, and a child code in 188..191 is returned unchanged. -/
theorem exit_code_range (limits : RunLimits) (reportStr : Option Stream) (child : Int)
    (env : ParentEnv) (c : Int)
    (h : (parentPath limits reportStr child env).outcome = .returned c) :
    (0 ≤ c ∧ c ≤ 191) ∨ (192 ≤ c ∧ c ≤ 255) := by
  unfold parentPath at h
  simp only at h
  generalize (pollLoop env limits.maxMsRuntime child (pollFuel limits.maxMsRuntime) 0 0
    env.wInit 0) = polled at h
  generalize hp0 : (if polled.1 ≠ child then Int.lor 0 TIMEOUT else 0) = p0 at h
  have hp0r : 0 ≤ p0 ∧ p0 < 32 := by
    subst hp0
    split <;> decide
  generalize (if polled.1 ≠ child then env.killW else polled.1) = wResult at h
  generalize (if polled.1 ≠ child then (if env.killW > 0 then env.killStatus else polled.2)
    else polled.2) = status at h
  obtain ⟨⟨hv0, hv1⟩, hvI⟩ :=
    classify_range reportStr env.strsignal env.intrFinal wResult child status p0 hp0r.1 hp0r.2
  generalize classify reportStr env.strsignal env.intrFinal wResult child status p0 = v
    at h hv0 hv1 hvI
  cases hr : FindRogues child limits.user env.rogues with
  | exited code =>
    rw [hr] at h
    exact Outcome.noConfusion h
  | returned r =>
    obtain ⟨diag, numRogues⟩ := r
    rw [hr] at h
    simp only [Outcome.returned.injEq] at h
    obtain ⟨h10, h11, h1n⟩ := lor_or_same_range v.progErrors
      (if numRogues ≠ 0 then Int.lor v.progErrors ROGUE_PROCS else v.progErrors) ROGUE_PROCS
      hv0 hv1 (Or.inr (Or.inl rfl)) (by split <;> simp)
    generalize (if numRogues ≠ 0 then Int.lor v.progErrors ROGUE_PROCS else v.progErrors) = p1
      at h h10 h11 h1n
    obtain ⟨h20, h21, h2n⟩ := lor_or_same_range p1
      (if limits.maxMsCPU ≤ wrap32 (GetRealMs env.selfUsage + GetRealMs env.childUsage)
        then Int.lor p1 TIMEOUT else p1) TIMEOUT
      h10 h11 (Or.inl rfl) (by split <;> simp)
    generalize (if limits.maxMsCPU ≤ wrap32 (GetRealMs env.selfUsage + GetRealMs env.childUsage)
        then Int.lor p1 TIMEOUT else p1) = p2 at h h20 h21 h2n
    obtain ⟨h30, h31, h3n⟩ := lor_or_same_range p2
      (MopUpInput env.mopReads limits.unreadInputAllowed p2 reportStr).2 UNREAD_INPUT
      h20 h21 (Or.inr (Or.inr (Or.inr rfl))) (MopUpInput_cases _ _ _ _)
    generalize (MopUpInput env.mopReads limits.unreadInputAllowed p2 reportStr).2 = p3
      at h h30 h31 h3n
    rw [← h]
    apply ShowCode_range reportStr v.IHSError p3 v.status h30 h31
    rcases hvI with hI | ⟨hI, hrest⟩
    · exact Or.inl hI
    · refine Or.inr ⟨hI, ?_⟩
      rcases hrest with hne | hs
      · exact Or.inl (h3n (h2n (h1n hne)))
      · exact Or.inr hs

theorem exit_code_range_witness :
    (parentPath defaultLimits (some .stderr) 4242 (calmParent 4242 (200 * 256))).outcome
        = .returned 179
      ∧ ((0 ≤ (179 : Int) ∧ (179 : Int) ≤ 191) ∨ (192 ≤ (179 : Int) ∧ (179 : Int) ≤ 255)) :=
  ⟨by decide,
    exit_code_range defaultLimits (some .stderr) 4242 (calmParent 4242 (200 * 256)) 179
      (by decide)⟩

/-- C3 refuted as stated: a child that exits normally with code 200 and no
fault makes the supervisor return 179, and one that exits with code 190 makes
it return 190; neither lies in {0..178} ∪ {180..187} ∪ {192..255}. -/
theorem exit_code_179_and_190 :
    (parentPath defaultLimits (some .stderr) 4242 (calmParent 4242 (200 * 256))).outcome
        = .returned 179
      ∧ (parentPath defaultLimits (some .stderr) 4242 (calmParent 4242 (190 * 256))).outcome
        = .returned 190
      ∧ WEXITSTATUS (200 * 256) = 200 ∧ WIFEXITED (200 * 256) = true
      ∧ WEXITSTATUS (190 * 256) = 190 ∧ WIFEXITED (190 * 256) = true
      ∧ ¬ ((0 ≤ (179 : Int) ∧ (179 : Int) ≤ 178) ∨ (180 ≤ (179 : Int) ∧ (179 : Int) ≤ 187)
          ∨ (192 ≤ (179 : Int) ∧ (179 : Int) ≤ 255))
      ∧ ¬ ((0 ≤ (190 : Int) ∧ (190 : Int) ≤ 178) ∨ (180 ≤ (190 : Int) ∧ (190 : Int) ≤ 187)
          ∨ (192 ≤ (190 : Int) ∧ (190 : Int) ≤ 255)) := by
  decide

/-! ## ProcessArgs -/

theorem isFlagArg_dash (body : List Char) : isFlagArg ('-' :: body) = true := rfl

theorem isFlagArg_false_of_no_dash (arg : List Char) (h : ∀ body, arg ≠ '-' :: body) :
    isFlagArg arg = false := by
  cases arg with
  | nil => rfl
  | cons c body =>
    by_cases hc : c = '-'
    · exact absurd (by rw [hc]) (h body)
    · simp [isFlagArg, hc]

theorem argsLoop_split (atoi : List Char → Int) (args : List (List Char)) :
    ∀ (lims : RunLimits) (n : Nat),
      argsLoop atoi args lims n
        = (args.dropWhile isFlagArg, (argsLoop atoi (args.takeWhile isFlagArg) lims n).2) := by
  induction args with
  | nil => intro lims n; rfl
  | cons arg rest ih =>
    intro lims n
    unfold argsLoop
    split
    · rename_i body
      rw [List.dropWhile_cons_of_pos (isFlagArg_dash body),
        List.takeWhile_cons_of_pos (isFlagArg_dash body), ih]
      rfl
    · rename_i hno
      have hf := isFlagArg_false_of_no_dash arg hno
      rw [List.dropWhile_cons_of_neg (by simp [hf]), List.takeWhile_cons_of_neg (by simp [hf])]

/-- C11: `ProcessArgs` consumes exactly the leading arguments that begin with
'-': the vector it leaves for the child is the argument list from the first
argument that does not begin with '-' on (empty when there is none), unchanged,
and the limits are those of the leading flag arguments alone, so that later
arguments beginning with '-' have no effect on them. -/
theorem ProcessArgs_consumes_leading_flags (atoi : List Char → Int)
    (args : List (List Char)) (lims : RunLimits) :
    (ProcessArgs atoi args lims).argv = args.dropWhile isFlagArg
      ∧ args = args.takeWhile isFlagArg ++ (ProcessArgs atoi args lims).argv
      ∧ (∀ a, (ProcessArgs atoi args lims).argv.head? = some a → isFlagArg a = false)
      ∧ (ProcessArgs atoi args lims).lims
          = (ProcessArgs atoi (args.takeWhile isFlagArg) lims).lims := by
  have h := argsLoop_split atoi args lims 0
  have hargv : (ProcessArgs atoi args lims).argv = args.dropWhile isFlagArg := by
    unfold ProcessArgs
    simp only [h]
  refine ⟨hargv, ?_, ?_, ?_⟩
  · rw [hargv, List.takeWhile_append_dropWhile]
  · intro a ha
    rw [hargv] at ha
    have := List.head?_dropWhile_not isFlagArg args
    rw [ha] at this
    simpa using this
  · have h2 := argsLoop_split atoi (args.takeWhile isFlagArg) lims 0
    unfold ProcessArgs
    simp only [h, h2]

theorem ProcessArgs_consumes_leading_flags_witness :
    ((ProcessArgs atoi ["-T500".toList, "sleep".toList, "5".toList] defaultLimits).argv
        = ["-T500".toList, "sleep".toList, "5".toList].dropWhile isFlagArg
      ∧ ["-T500".toList, "sleep".toList, "5".toList]
        = ["-T500".toList, "sleep".toList, "5".toList].takeWhile isFlagArg
          ++ (ProcessArgs atoi ["-T500".toList, "sleep".toList, "5".toList] defaultLimits).argv
      ∧ (∀ a, (ProcessArgs atoi ["-T500".toList, "sleep".toList, "5".toList]
          defaultLimits).argv.head? = some a → isFlagArg a = false)
      ∧ (ProcessArgs atoi ["-T500".toList, "sleep".toList, "5".toList] defaultLimits).lims
          = (ProcessArgs atoi (["-T500".toList, "sleep".toList, "5".toList].takeWhile isFlagArg)
              defaultLimits).lims)
      ∧ (ProcessArgs atoi ["-T500".toList, "sleep".toList, "5".toList]
          defaultLimits).lims.maxMsRuntime = 500
      ∧ (ProcessArgs atoi ["-T500".toList, "sleep".toList, "5".toList] defaultLimits).argv
          = ["sleep".toList, "5".toList]
      ∧ (ProcessArgs atoi ["-T500".toList, "sleep".toList, "-p5".toList]
          defaultLimits).lims.maxProcs = 10 :=
  ⟨ProcessArgs_consumes_leading_flags atoi ["-T500".toList, "sleep".toList, "5".toList]
      defaultLimits, by decide, by decide, by decide⟩

theorem ite_field {α β : Type} (c : Prop) [Decidable c] (a b : α) (g : α → β) (v : β)
    (ha : g a = v) (hb : g b = v) : g (if c then a else b) = v := by
  split <;> assumption

theorem applyFlag_maxProcs (atoi : List Char → Int) (body : List Char) (lims : RunLimits)
    (n : Nat) :
    (applyFlag atoi body lims n).1.maxProcs =
      match flagValue 'p' ('-' :: body) with
      | some v => min 100 (max 1 (atoi v))
      | none => lims.maxProcs := by
  cases body with
  | nil =>
    simp [applyFlag, flagValue, MAX_MOUNTS]
  | cons f value =>
    by_cases hp : f = 'p'
    · subst hp
      simp only [applyFlag, flagValue, List.headD_cons, List.drop_succ_cons, List.drop_zero,
        if_true, MAX_PROCS]
      by_cases h1 : atoi value < 1
      · rw [if_pos h1, max_eq_left (by omega), min_eq_right (by norm_num)]
      · rw [if_neg h1]
        by_cases h2 : atoi value > 100
        · rw [if_pos h2, max_eq_right (by omega), min_eq_left (by omega)]
        · rw [if_neg h2, max_eq_right (by omega), min_eq_right (by omega)]
    · have hv : flagValue 'p' ('-' :: f :: value) = none := by
        simp only [flagValue, if_neg hp]
      rw [hv]
      unfold applyFlag
      have e : (f :: value).headD (Char.ofNat 0) = f := rfl
      rw [e, if_neg hp]
      repeat' (first | rfl | apply ite_field _ _ _ (fun x : RunLimits × Nat => x.1.maxProcs))

theorem argsLoop_maxProcs (atoi : List Char → Int) (args : List (List Char)) :
    ∀ (lims : RunLimits) (n : Nat),
      (argsLoop atoi args lims n).2.1.maxProcs =
        match lastP args with
        | some t => min 100 (max 1 (atoi t))
        | none => lims.maxProcs := by
  induction args with
  | nil => intro lims n; rfl
  | cons arg rest ih =>
    intro lims n
    unfold argsLoop
    split
    · rename_i body
      rw [ih, applyFlag_maxProcs]
      have hl : lastP (('-' :: body) :: rest)
          = match lastP rest with
            | some t => some t
            | none => flagValue 'p' ('-' :: body) := by
        unfold lastP
        rw [List.takeWhile_cons_of_pos (isFlagArg_dash body), List.filterMap_cons]
        cases hv : flagValue 'p' ('-' :: body) with
        | none => cases (List.filterMap (flagValue 'p') (List.takeWhile isFlagArg rest)).getLast? <;> rfl
        | some v =>
          simp only [List.getLast?_cons]
          cases (List.filterMap (flagValue 'p') (List.takeWhile isFlagArg rest)).getLast? <;> rfl
      rw [hl]
      cases lastP rest with
      | some t => rfl
      | none => rfl
    · rename_i hno
      have hf := isFlagArg_false_of_no_dash arg hno
      have hl : lastP (arg :: rest) = none := by
        unfold lastP
        rw [List.takeWhile_cons_of_neg (by simp [hf])]
        rfl
      rw [hl]

/-- C13: after `ProcessArgs` on the default limits, `maxProcs` is 10 when no
`-p` flag was parsed and otherwise the integer `atoi` reads from the last
`-p` flag, clamped to [1, 100]; so `maxProcs` always lies between 1 and
100. -/
theorem ProcessArgs_maxProcs (atoi : List Char → Int) (args : List (List Char)) :
    ((ProcessArgs atoi args defaultLimits).lims.maxProcs =
        match lastP args with
        | some t => min 100 (max 1 (atoi t))
        | none => 10)
      ∧ 1 ≤ (ProcessArgs atoi args defaultLimits).lims.maxProcs
      ∧ (ProcessArgs atoi args defaultLimits).lims.maxProcs ≤ 100 := by
  have h : (ProcessArgs atoi args defaultLimits).lims.maxProcs =
      match lastP args with
      | some t => min 100 (max 1 (atoi t))
      | none => 10 := by
    have := argsLoop_maxProcs atoi args defaultLimits 0
    unfold ProcessArgs
    exact this
  refine ⟨h, ?_, ?_⟩
  · rw [h]
    cases lastP args with
    | none => norm_num
    | some t => exact le_min (by norm_num) (le_max_left _ _)
  · rw [h]
    cases lastP args with
    | none => norm_num
    | some t => exact min_le_left _ _

theorem ProcessArgs_maxProcs_witness :
    (((ProcessArgs atoi ["-p0".toList, "c".toList] defaultLimits).lims.maxProcs =
        match lastP ["-p0".toList, "c".toList] with
        | some t => min 100 (max 1 (atoi t))
        | none => 10)
      ∧ 1 ≤ (ProcessArgs atoi ["-p0".toList, "c".toList] defaultLimits).lims.maxProcs
      ∧ (ProcessArgs atoi ["-p0".toList, "c".toList] defaultLimits).lims.maxProcs ≤ 100)
    ∧ (ProcessArgs atoi ["-p0".toList, "c".toList] defaultLimits).lims.maxProcs = 1
    ∧ (ProcessArgs atoi ["-p1000".toList, "c".toList] defaultLimits).lims.maxProcs = 100
    ∧ (ProcessArgs atoi ["-p7".toList, "-p3".toList, "c".toList, "-p9".toList]
        defaultLimits).lims.maxProcs = 3
    ∧ (ProcessArgs atoi ["c".toList] defaultLimits).lims.maxProcs = 10 :=
  ⟨ProcessArgs_maxProcs atoi ["-p0".toList, "c".toList], by decide, by decide, by decide,
    by decide⟩

theorem setRow_eq (rows : List (List Char)) (i : Nat) (s : List Char) :
    setRow rows i s = firstRows rows i ++ [s] ++ rows.drop (i + 1) := rfl

theorem firstRows_length (rows : List (List Char)) (i : Nat) : (firstRows rows i).length = i := by
  unfold firstRows
  rw [List.length_append, List.length_take, List.length_replicate]
  omega

theorem firstRows_eq_take (rows : List (List Char)) (i : Nat) (h : i ≤ rows.length) :
    firstRows rows i = rows.take i := by
  unfold firstRows
  rw [Nat.sub_eq_zero_of_le h]
  simp

theorem firstRows_setRow_succ (rows : List (List Char)) (i : Nat) (s : List Char) :
    firstRows (setRow rows i s) (i + 1) = firstRows rows i ++ [s] := by
  have hlen : i + 1 ≤ (setRow rows i s).length := by
    rw [setRow_eq, List.length_append, List.length_append, firstRows_length]
    simp
  rw [firstRows_eq_take _ _ hlen, setRow_eq, List.take_append_of_le_length]
  · rw [List.take_of_length_le]
    rw [List.length_append, firstRows_length]
    simp
  · rw [List.length_append, firstRows_length]
    simp

theorem applyFlag_mount_d (atoi : List Char → Int) (value : List Char) (lims : RunLimits)
    (n : Nat) (hn : n < MAX_MOUNTS) :
    (applyFlag atoi ('d' :: value) lims n).1.mount = setRow lims.mount n (value.take PATH_MAX)
      ∧ (applyFlag atoi ('d' :: value) lims n).2 = n + 1 := by
  unfold applyFlag
  have e : ('d' :: value).headD (Char.ofNat 0) = 'd' := rfl
  rw [e, if_neg (show ¬ 'd' = 'p' by decide), if_neg (show ¬ 'd' = 'o' by decide),
    if_neg (show ¬ 'd' = 'T' by decide), if_neg (show ¬ 'd' = 't' by decide),
    if_neg (show ¬ 'd' = 's' by decide), if_neg (show ¬ 'd' = 'f' by decide),
    if_neg (show ¬ 'd' = 'r' by decide), if_neg (show ¬ 'd' = 'n' by decide),
    if_neg (show ¬ 'd' = 'u' by decide), if_pos ⟨rfl, hn⟩]
  exact ⟨rfl, rfl⟩

theorem ite_field_neg {α β : Type} (c : Prop) [Decidable c] (a b : α) (g : α → β) (v : β)
    (hc : ¬ c) (hb : g b = v) : g (if c then a else b) = v := by
  rw [if_neg hc]
  exact hb

theorem applyFlag_mount_other (atoi : List Char → Int) (body : List Char) (lims : RunLimits)
    (n : Nat) (h : ¬ (body.headD (Char.ofNat 0) = 'd' ∧ n < MAX_MOUNTS)) :
    ((applyFlag atoi body lims n).1.mount, (applyFlag atoi body lims n).2) = (lims.mount, n) := by
  unfold applyFlag
  repeat' (first
    | rfl
    | apply ite_field_neg _ _ _ (fun x : RunLimits × Nat => (x.1.mount, x.2)) _ h
    | apply ite_field _ _ _ (fun x : RunLimits × Nat => (x.1.mount, x.2)))

theorem argsLoop_mount (atoi : List Char → Int) (args : List (List Char)) :
    ∀ (lims : RunLimits) (n : Nat), n ≤ MAX_MOUNTS →
      firstRows (argsLoop atoi args lims n).2.1.mount (argsLoop atoi args lims n).2.2
        = firstRows lims.mount n
          ++ ((dPaths args).map (fun p => p.take PATH_MAX)).take (MAX_MOUNTS - n) := by
  induction args with
  | nil =>
    intro lims n _
    simp [argsLoop, dPaths]
  | cons arg rest ih =>
    intro lims n hn
    unfold argsLoop
    split
    · rename_i body
      have hd : dPaths (('-' :: body) :: rest)
          = (match flagValue 'd' ('-' :: body) with
              | some v => [v]
              | none => []) ++ dPaths rest := by
        unfold dPaths
        rw [List.takeWhile_cons_of_pos (isFlagArg_dash body), List.filterMap_cons]
        cases flagValue 'd' ('-' :: body) <;> rfl
      by_cases hc : body.headD (Char.ofNat 0) = 'd' ∧ n < MAX_MOUNTS
      · obtain ⟨hflag, hlt⟩ := hc
        cases body with
        | nil => exact absurd hflag (by decide)
        | cons f value =>
          have hf : f = 'd' := hflag
          subst hf
          obtain ⟨hm, hk⟩ := applyFlag_mount_d atoi value lims n hlt
          rw [hk, ih _ _ (by omega), hm, firstRows_setRow_succ, hd]
          have hv : flagValue 'd' ('-' :: 'd' :: value) = some value := rfl
          rw [hv]
          have hsub : MAX_MOUNTS - n = (MAX_MOUNTS - (n + 1)) + 1 := by omega
          rw [hsub]
          simp only [List.singleton_append, List.map_cons, List.take_succ_cons,
            List.append_assoc]
      · have ho := applyFlag_mount_other atoi body lims n hc
        rw [Prod.mk.injEq] at ho
        rw [ho.2, ih _ _ hn, ho.1, hd]
        by_cases hlt : n < MAX_MOUNTS
        · have hflag : ¬ body.headD (Char.ofNat 0) = 'd' := fun h => hc ⟨h, hlt⟩
          have hv : flagValue 'd' ('-' :: body) = none := by
            cases body with
            | nil => rfl
            | cons f value =>
              have : ¬ f = 'd' := hflag
              simp only [flagValue, if_neg this]
          rw [hv]
          rfl
        · have hz : MAX_MOUNTS - n = 0 := by omega
          rw [hz, List.take_zero, List.take_zero]
    · rename_i hno
      have hf := isFlagArg_false_of_no_dash arg hno
      have hd : dPaths (arg :: rest) = [] := by
        unfold dPaths
        rw [List.takeWhile_cons_of_neg (by simp [hf])]
        rfl
      rw [hd]
      simp

theorem takeWhile_append_stop {α : Type} (p : α → Bool) (l : List α) (a : α) (r : List α)
    (ha : p a = false) : (l ++ a :: r).takeWhile p = l.takeWhile p := by
  induction l with
  | nil => simp [List.takeWhile_cons, ha]
  | cons x xs ih =>
    rw [List.cons_append, List.takeWhile_cons, List.takeWhile_cons, ih]

theorem childMounts_mountSources (env : ChildEnv) (rows : List (List Char)) :
    childMounts env rows = childMounts env (mountSources rows) := by
  induction rows with
  | nil => rfl
  | cons source rest ih =>
    by_cases he : source = []
    · subst he
      rfl
    · have hs : mountSources (source :: rest) = source :: mountSources rest := by
        unfold mountSources
        rw [List.takeWhile_cons_of_pos (by simpa using he)]
      rw [hs]
      unfold childMounts
      rw [ih]

theorem ProcessArgs_mountSources (atoi : List Char → Int) (args : List (List Char))
    (lims : RunLimits) :
    mountSources (ProcessArgs atoi args lims).lims.mount
      = mountSources (((dPaths args).map (fun p => p.take PATH_MAX)).take MAX_MOUNTS) := by
  have h := argsLoop_mount atoi args lims 0 (Nat.zero_le _)
  have h0 : firstRows lims.mount 0 = [] := by simp [firstRows]
  rw [h0, List.nil_append, Nat.sub_zero] at h
  unfold ProcessArgs
  simp only
  rw [setRow_eq, h, List.append_assoc, List.singleton_append]
  unfold mountSources
  exact takeWhile_append_stop _ _ _ _ (by simp)

/-- C12 as amended: when every `-d` path is at most `PATH_MAX` characters
long, the bind-mount sources that child setup iterates over (the entries of
`limits.mount` before the first empty string) are the paths of the first 16
`-d` flags in command-line order up to, and not including, the first of them
that is empty; `-d` flags beyond the 16th are ignored. -/
theorem ProcessArgs_mount_sources (atoi : List Char → Int) (args : List (List Char))
    (lims : RunLimits) (env : ChildEnv) (hlen : ∀ p ∈ dPaths args, p.length ≤ PATH_MAX) :
    mountSources (ProcessArgs atoi args lims).lims.mount
        = ((dPaths args).take MAX_MOUNTS).takeWhile (fun p => p ≠ [])
      ∧ childMounts env (ProcessArgs atoi args lims).lims.mount
        = childMounts env (((dPaths args).take MAX_MOUNTS).takeWhile (fun p => p ≠ [])) := by
  have hmap : (dPaths args).map (fun p => p.take PATH_MAX) = dPaths args := by
    conv_rhs => rw [← List.map_id (dPaths args)]
    apply List.map_congr_left
    intro p hp
    exact List.take_of_length_le (hlen p hp)
  have h := ProcessArgs_mountSources atoi args lims
  rw [hmap] at h
  refine ⟨h, ?_⟩
  rw [childMounts_mountSources, h]
  rfl

theorem ProcessArgs_mount_sources_witness :
    (∀ p ∈ dPaths ["-d/usr".toList, "-r".toList, "-d/lib".toList, "c".toList],
        p.length ≤ PATH_MAX)
      ∧ mountSources (ProcessArgs atoi
          ["-d/usr".toList, "-r".toList, "-d/lib".toList, "c".toList] defaultLimits).lims.mount
        = ((dPaths ["-d/usr".toList, "-r".toList, "-d/lib".toList, "c".toList]).take
            MAX_MOUNTS).takeWhile (fun p => p ≠ [])
      ∧ childMounts smoothChild (ProcessArgs atoi
          ["-d/usr".toList, "-r".toList, "-d/lib".toList, "c".toList] defaultLimits).lims.mount
        = childMounts smoothChild
            (((dPaths ["-d/usr".toList, "-r".toList, "-d/lib".toList, "c".toList]).take
              MAX_MOUNTS).takeWhile (fun p => p ≠ [])) :=
  ⟨by decide,
    ProcessArgs_mount_sources atoi ["-d/usr".toList, "-r".toList, "-d/lib".toList, "c".toList]
      defaultLimits smoothChild (by decide)⟩

/-- C12 refuted as stated: with the arguments `-d -d/usr c` both `-d` paths
are at most `PATH_MAX` characters long, the first being empty; the entries of
`limits.mount` before the first empty string are none, while the paths of the
first 16 `-d` flags are the empty path and `/usr`. -/
theorem empty_d_path_hides_later_mounts :
    (∀ p ∈ dPaths ["-d".toList, "-d/usr".toList, "c".toList], p.length ≤ PATH_MAX)
      ∧ (ProcessArgs atoi ["-d".toList, "-d/usr".toList, "c".toList] defaultLimits).lims.mount
        = [[], "/usr".toList, []]
      ∧ mountSources
          (ProcessArgs atoi ["-d".toList, "-d/usr".toList, "c".toList] defaultLimits).lims.mount
        = []
      ∧ (dPaths ["-d".toList, "-d/usr".toList, "c".toList]).take MAX_MOUNTS
        = [[], "/usr".toList]
      ∧ mountSources
          (ProcessArgs atoi ["-d".toList, "-d/usr".toList, "c".toList] defaultLimits).lims.mount
        ≠ (dPaths ["-d".toList, "-d/usr".toList, "c".toList]).take MAX_MOUNTS := by
  decide

/-! ## The CPU limit -/

theorem cpuSeconds_ceiling (m : Int) (h0 : 0 ≤ m) (h1 : m ≤ 2147482648) :
    1000 * (cpuSeconds m - 1) < m ∧ m ≤ 1000 * cpuSeconds m := by
  unfold cpuSeconds
  rw [wrap32_of_range _ (by omega) (by omega), Int.tdiv_eq_ediv (by omega) (by norm_num)]
  omega

/-- C14: at the failing input `maxMsCPU = 2147483647` (`-t2147483647`), an
`int`, the sum `maxMsCPU + 999` leaves the 32-bit range and the limit comes
out as -2147482 seconds, while the ceiling of 2147483647 / 1000 is 2147484.
At 0, 1, 1000 and 1001 the limit is 0, 1, 1 and 2. -/
theorem cpuSeconds_overflow :
    cpuSeconds 2147483647 = -2147482
      ∧ cpuSeconds 2147483647 ≠ 2147484
      ∧ (1000 * (2147484 - 1) < (2147483647 : Int) ∧ (2147483647 : Int) ≤ 1000 * 2147484)
      ∧ (childLimits { defaultLimits with maxMsCPU := 2147483647 } smoothChild).1.head?
          = some (Step.setrlimit .CPU (-2147482))
      ∧ cpuSeconds 0 = 0 ∧ cpuSeconds 1 = 1 ∧ cpuSeconds 1000 = 1 ∧ cpuSeconds 1001 = 2 := by
  decide

/-! ## PumpOutput with a negative budget -/

theorem pumpLoop_no_budget (reads : List (List Byte)) :
    ∀ (a r : Int) (sink : List Byte), a ≤ 0 → (pumpLoop reads a r sink).2.2 = sink := by
  induction reads with
  | nil => intro a r sink _; rfl
  | cons buf rest ih =>
    intro a r sink ha
    unfold pumpLoop
    simp only
    by_cases hpos : (0 : Int) < (buf.length : Int)
    · rw [if_pos hpos]
      have hlt : a < (buf.length : Int) := by omega
      rw [if_pos hlt, if_neg (by omega)]
      exact ih _ _ _ ha
    · rw [if_neg hpos]

/-- C18: at the failing input `byteLimit = -1` (reachable as `-o-1`) with the
child writing the two bytes "hi": `PumpOutput` forwards no byte, writes the
text "... and 3 dropped bytes\n" and sets `status` to `OUTPUT_OVERRUN`; even
with no output at all it reports one dropped byte. -/
theorem PumpOutput_minus_one :
    (ProcessArgs atoi ["-o-1".toList, "c".toList] defaultLimits).lims.maxOutput = -1
      ∧ (PumpOutput ⟨1, 3, -1, 0, 0, none⟩ [[104, 105]]).2
          = textBytes "... and 3 dropped bytes\n"
      ∧ (PumpOutput ⟨1, 3, -1, 0, 0, none⟩ [[104, 105]]).1.status = OUTPUT_OVERRUN
      ∧ (PumpOutput ⟨1, 3, -1, 0, 0, none⟩ [[104, 105]]).1.bytesRead = 2
      ∧ (PumpOutput ⟨1, 3, -1, 0, 0, none⟩ []).2 = textBytes "... and 1 dropped bytes\n"
      ∧ (PumpOutput ⟨1, 3, -1, 0, 0, none⟩ []).1.status = OUTPUT_OVERRUN := by
  decide

/-! ## MakePath -/

theorem slashPrefixes_eq (path : List Char) : slashPrefixes path = slashPrefixesFrom [] path :=
  rfl

theorem slashPrefixesFrom_cons (pre : List Char) (c : Char) (rest : List Char) :
    slashPrefixesFrom pre (c :: rest)
      = (if c = '/' then [pre] else []) ++ slashPrefixesFrom (pre ++ [c]) rest := by
  unfold slashPrefixesFrom
  rw [List.length_cons, List.range_succ_eq_map, List.filter_cons, List.filter_map]
  have hmap : List.map (fun i => pre ++ List.take i (c :: rest))
        (List.map Nat.succ
          (List.filter ((fun i => decide ((c :: rest).get? i = some '/')) ∘ Nat.succ)
            (List.range rest.length)))
      = List.map (fun i => (pre ++ [c]) ++ List.take i rest)
        (List.filter (fun i => decide (rest.get? i = some '/')) (List.range rest.length)) := by
    rw [List.map_map]
    congr 1
    · funext i
      simp
  by_cases hc : c = '/'
  · subst hc
    have h0 : decide (('/' :: rest).get? 0 = some '/') = true := by simp
    rw [if_pos h0, if_pos rfl, List.map_cons, hmap]
    simp
  · have h0 : ¬ (decide ((c :: rest).get? 0 = some '/') = true) := by
      simpa using hc
    rw [if_neg h0, if_neg hc, hmap]
    rfl

theorem cstr_of_no_zero (pre rest : List Char) (h : Char.ofNat 0 ∉ pre) :
    cstr (pre ++ Char.ofNat 0 :: rest) = pre ∧ cstr pre = pre := by
  have hself : ∀ l : List Char, Char.ofNat 0 ∉ l →
      l.takeWhile (fun c => decide (c ≠ Char.ofNat 0)) = l := by
    intro l
    induction l with
    | nil => intro _; rfl
    | cons x xs ih =>
      intro hx
      have hx0 : x ≠ Char.ofNat 0 := fun e => hx (by rw [e]; exact List.mem_cons_self _ _)
      rw [List.takeWhile_cons_of_pos (by simpa using hx0),
        ih (fun hm => hx (List.mem_cons_of_mem _ hm))]
  constructor
  · unfold cstr
    rw [takeWhile_append_stop _ _ _ _ (by simp)]
    exact hself pre h
  · exact hself pre h

theorem makePathLoop_spec (mkdir : List Char → Int → Int × Int) (mode : Int)
    (rest : List Char) :
    ∀ (pre : List Char) (calls : List (List Char × Int)), Char.ofNat 0 ∉ pre ++ rest →
      makePathLoop mkdir mode pre rest calls
        = ⟨calls ++ (throughFirstFailure (mkdirOk mkdir mode)
              (slashPrefixesFrom pre rest ++ [pre ++ rest])).map (fun q => (q, mode)),
            if (slashPrefixesFrom pre rest ++ [pre ++ rest]).all (mkdirOk mkdir mode) then 0
            else -1,
            pre ++ rest⟩ := by
  induction rest with
  | nil =>
    intro pre calls hz
    rw [List.append_nil] at hz
    have hc := (cstr_of_no_zero pre [] hz).2
    unfold makePathLoop
    rw [hc]
    have hs : slashPrefixesFrom pre [] = [] := rfl
    rw [hs, List.nil_append, List.append_nil]
    by_cases hok : mkdirOk mkdir mode pre = true
    · have hcond : ¬ ((mkdir pre mode).1 ≠ 0 ∧ (mkdir pre mode).2 ≠ EEXIST) := by
        unfold mkdirOk at hok
        simp only [Bool.or_eq_true, beq_iff_eq] at hok
        tauto
      rw [if_neg hcond]
      simp [throughFirstFailure, hok]
    · have hcond : (mkdir pre mode).1 ≠ 0 ∧ (mkdir pre mode).2 ≠ EEXIST := by
        unfold mkdirOk at hok
        simp only [Bool.or_eq_true, beq_iff_eq, not_or] at hok
        exact hok
      rw [if_pos hcond]
      simp [throughFirstFailure, hok]
  | cons c rest ih =>
    intro pre calls hz
    have hpre : Char.ofNat 0 ∉ pre := fun h => hz (List.mem_append_left _ h)
    rw [slashPrefixesFrom_cons]
    unfold makePathLoop
    by_cases hc : c = '/'
    · subst hc
      have hcs := (cstr_of_no_zero pre rest hpre).1
      simp only [if_true, hcs]
      have hz' : Char.ofNat 0 ∉ (pre ++ ['/']) ++ rest := by
        rw [List.append_assoc]
        exact hz
      by_cases hok : mkdirOk mkdir mode pre = true
      · have hcond : ¬ ((mkdir pre mode).1 ≠ 0 ∧ (mkdir pre mode).2 ≠ EEXIST) := by
          unfold mkdirOk at hok
          simp only [Bool.or_eq_true, beq_iff_eq] at hok
          tauto
        rw [if_neg hcond, ih _ _ hz']
        simp [throughFirstFailure, hok]
      · have hcond : (mkdir pre mode).1 ≠ 0 ∧ (mkdir pre mode).2 ≠ EEXIST := by
          unfold mkdirOk at hok
          simp only [Bool.or_eq_true, beq_iff_eq, not_or] at hok
          exact hok
        rw [if_pos hcond]
        simp [throughFirstFailure, hok]
    · have hz' : Char.ofNat 0 ∉ (pre ++ [c]) ++ rest := by
        rw [List.append_assoc]
        exact hz
      rw [if_neg hc, if_neg hc, ih _ _ hz']
      simp

/-- C17: for a bind-mount source `/path` (at most `PATH_MAX` characters after
the slash) child setup takes `path`, the source without its leading slash, as
destination; `MakePath` on it calls `mkdir` with the mode it was given (0755
in `DoChild`), by increasing length, on each prefix that ends just before a
'/' and finally on the whole path, stopping at the first call that fails
otherwise than with `EEXIST`; it returns 0 exactly when every one of these
calls succeeds or fails with `EEXIST` and -1 otherwise, and the path string is
on return what it was. -/
theorem MakePath_spec (mkdir : List Char → Int → Int × Int) (env : ChildEnv)
    (path : List Char) (mode : Int) (hz : Char.ofNat 0 ∉ path) (hlen : path.length ≤ PATH_MAX) :
    (childMounts env [('/' :: path)]).1.head? = some (Step.MakePath path)
      ∧ (MakePath mkdir path mode).calls
          = (throughFirstFailure (mkdirOk mkdir mode) (slashPrefixes path ++ [path])).map
              (fun q => (q, mode))
      ∧ ((MakePath mkdir path mode).result = 0
          ↔ ∀ q ∈ slashPrefixes path ++ [path], mkdirOk mkdir mode q = true)
      ∧ ((MakePath mkdir path mode).result = 0 ∨ (MakePath mkdir path mode).result = -1)
      ∧ (MakePath mkdir path mode).path = path := by
  have h := makePathLoop_spec mkdir mode path [] [] (by simpa using hz)
  have hM : MakePath mkdir path mode
      = ⟨(throughFirstFailure (mkdirOk mkdir mode) (slashPrefixes path ++ [path])).map
            (fun q => (q, mode)),
          if (slashPrefixes path ++ [path]).all (mkdirOk mkdir mode) then 0 else -1, path⟩ := by
    unfold MakePath
    rw [h, slashPrefixes_eq]
    simp
  have hdest : (('/' :: path).drop 1).take PATH_MAX = path := by
    rw [List.drop_succ_cons, List.drop_zero, List.take_of_length_le hlen]
  refine ⟨?_, ?_, ?_, ?_, ?_⟩
  · unfold childMounts
    rw [if_neg (by simp)]
    simp only [hdest]
    split
    · rfl
    · split <;> rfl
  · rw [hM]
  · rw [hM]
    simp only
    by_cases hall : (slashPrefixes path ++ [path]).all (mkdirOk mkdir mode) = true
    · rw [if_pos hall]
      exact ⟨fun _ => List.all_eq_true.mp hall, fun _ => rfl⟩
    · rw [if_neg hall]
      constructor
      · intro h01
        exact absurd h01 (by norm_num)
      · intro hq
        exact absurd (List.all_eq_true.mpr hq) hall
  · rw [hM]
    simp only
    split
    · exact Or.inl rfl
    · exact Or.inr rfl
  · rw [hM]

theorem MakePath_spec_witness :
    (Char.ofNat 0 ∉ "usr/lib/x".toList ∧ "usr/lib/x".toList.length ≤ PATH_MAX)
      ∧ ((childMounts smoothChild [('/' :: "usr/lib/x".toList)]).1.head?
          = some (Step.MakePath "usr/lib/x".toList)
        ∧ (MakePath usrExists "usr/lib/x".toList 493).calls
            = (throughFirstFailure (mkdirOk usrExists 493)
                (slashPrefixes "usr/lib/x".toList ++ ["usr/lib/x".toList])).map
                (fun q => (q, 493))
        ∧ ((MakePath usrExists "usr/lib/x".toList 493).result = 0
            ↔ ∀ q ∈ slashPrefixes "usr/lib/x".toList ++ ["usr/lib/x".toList],
                mkdirOk usrExists 493 q = true)
        ∧ ((MakePath usrExists "usr/lib/x".toList 493).result = 0
            ∨ (MakePath usrExists "usr/lib/x".toList 493).result = -1)
        ∧ (MakePath usrExists "usr/lib/x".toList 493).path = "usr/lib/x".toList)
      ∧ (MakePath usrExists "usr/lib/x".toList 493).calls
          = [("usr".toList, 493), ("usr/lib".toList, 493), ("usr/lib/x".toList, 493)]
      ∧ (MakePath usrExists "usr/lib/x".toList 493).result = 0 :=
  ⟨⟨by decide, by decide⟩,
    MakePath_spec usrExists smoothChild "usr/lib/x".toList 493 (by decide) (by decide),
    by decide, by decide⟩

/-! ## PumpInput -/

theorem inputLoop_feeding (g : Bool) (tail : List InEvent) (body : List InEvent) :
    ∀ (cr : Int) (a : Bool) (acts : List InAct), (∀ e ∈ body, feeding e) →
      inputLoop (body ++ .read [] g :: tail) cr a acts
        = (0, atStartAfter (chunksOf body) a, acts ++ (chunksOf body).map InAct.write) := by
  induction body with
  | nil =>
    intro cr a acts _
    simp [inputLoop, chunksOf, atStartAfter]
  | cons e rest ih =>
    intro cr a acts hf
    have hrest : ∀ e ∈ rest, feeding e := fun x hx => hf x (List.mem_cons_of_mem _ hx)
    rcases hf e (List.mem_cons_self _ _) with he | ⟨buf, hbuf, he⟩
    · subst he
      rw [List.cons_append]
      unfold inputLoop
      rw [if_pos rfl, ih _ _ _ hrest]
      rfl
    · subst he
      have hlen : (buf.length : Int) ≠ 0 := by
        have := List.length_pos.mpr hbuf
        omega
      have hpos : (true = true) ∧ (buf.length : Int) > 0 := by
        have := List.length_pos.mpr hbuf
        exact ⟨rfl, by omega⟩
      have hstep : inputLoop (InEvent.read buf true :: (rest ++ InEvent.read [] g :: tail))
          cr a acts
          = inputLoop (rest ++ InEvent.read [] g :: tail) (buf.length : Int)
              (buf.getLast? == some 10) (acts ++ [InAct.write buf]) := by
        rw [inputLoop]
        simp only
        rw [if_pos hlen, if_pos ⟨trivial, hpos.2⟩]
      rw [List.cons_append, hstep, ih _ _ _ hrest]
      have hch : chunksOf (InEvent.read buf true :: rest) = buf :: chunksOf rest := rfl
      rw [hch, List.map_cons, List.append_assoc]
      rfl

theorem eotLoop_eq (spins : List Bool) :
    ∀ acts : List InAct,
      eotLoop spins acts = acts ++ List.replicate (spins.count true) (.write [eofChr]) := by
  induction spins with
  | nil => intro acts; simp [eotLoop]
  | cons w rest ih =>
    intro acts
    unfold eotLoop
    rw [ih]
    cases w
    · simp
    · simp [List.replicate_succ]

theorem chunksOf_nonempty (body : List InEvent) (hf : ∀ e ∈ body, feeding e) :
    ∀ c ∈ chunksOf body, c ≠ [] := by
  intro c hc
  unfold chunksOf at hc
  rw [List.mem_filterMap] at hc
  obtain ⟨e, he, hec⟩ := hc
  rcases hf e he with h | ⟨buf, hbuf, h⟩
  · subst h
    simp at hec
  · subst h
    simp only [Option.some.injEq] at hec
    rw [← hec]
    exact hbuf

theorem atStartAfter_eq (chunks : List (List Byte)) :
    ∀ a : Bool, (∀ c ∈ chunks, c ≠ []) →
      atStartAfter chunks a
        = (match chunks.flatten.getLast? with
            | some b => b == 10
            | none => a) := by
  induction chunks with
  | nil => intro a _; rfl
  | cons c cs ih =>
    intro a hne
    have hc : c ≠ [] := hne c (List.mem_cons_self _ _)
    have hcs : ∀ x ∈ cs, x ≠ [] := fun x hx => hne x (List.mem_cons_of_mem _ hx)
    unfold atStartAfter
    rw [ih _ hcs, List.flatten_cons, List.getLast?_append]
    cases hl : cs.flatten.getLast? with
    | some b => rfl
    | none =>
      obtain ⟨b, hb⟩ : ∃ b, c.getLast? = some b := by
        cases hg : c.getLast? with
        | none => exact absurd (List.getLast?_eq_none_iff.mp hg) hc
        | some b => exact ⟨b, rfl⟩
      rw [hb]
      simp

/-- C16: with a pseudo-terminal endpoint, when `select` times out or `read`
delivers a non-empty chunk at every pass, with `go` true, until a read
returns 0, `PumpInput` writes every chunk unchanged and in order; then, before
the semaphore-polled loop, one EOT byte exactly when a byte was read and the
last byte read is not a newline; then one EOT for every pass of that loop that
finds the endpoint writable; and, the semaphore obtained, one further EOT
followed by the close, its last action. -/
theorem PumpInput_eof_protocol (isPty : Int) (body tail : List InEvent) (g : Bool)
    (spins : List Bool) (hpty : isPty ≠ 0) (hfeed : ∀ e ∈ body, feeding e) :
    PumpInput isPty (body ++ .read [] g :: tail) spins
      = (chunksOf body).map InAct.write
        ++ (match (chunksOf body).flatten.getLast? with
            | some b => if b = 10 then [] else [InAct.write [eofChr]]
            | none => [])
        ++ List.replicate (spins.count true) (InAct.write [eofChr])
        ++ [InAct.write [eofChr], InAct.close] := by
  have hloop := inputLoop_feeding g tail body 0 true [] hfeed
  have hat := atStartAfter_eq (chunksOf body) true (chunksOf_nonempty body hfeed)
  unfold PumpInput
  simp only [hloop, if_pos hpty, if_true, List.nil_append, eotLoop_eq, hat]
  cases (chunksOf body).flatten.getLast? with
  | none => simp
  | some b =>
    by_cases hb : b = 10
    · simp [hb]
    · simp [hb]

theorem PumpInput_eof_protocol_witness :
    ((1 : Int) ≠ 0
      ∧ ∀ e ∈ [InEvent.idle true, .read [104, 105] true, .idle true, .read [10, 120] true],
          feeding e)
    ∧ PumpInput 1
        ([InEvent.idle true, .read [104, 105] true, .idle true, .read [10, 120] true]
          ++ .read [] true :: [])
        [false, true, false]
      = (chunksOf [InEvent.idle true, .read [104, 105] true, .idle true,
            .read [10, 120] true]).map InAct.write
        ++ (match (chunksOf [InEvent.idle true, .read [104, 105] true, .idle true,
              .read [10, 120] true]).flatten.getLast? with
            | some b => if b = 10 then [] else [InAct.write [eofChr]]
            | none => [])
        ++ List.replicate ([false, true, false].count true) (InAct.write [eofChr])
        ++ [InAct.write [eofChr], InAct.close]
    ∧ PumpInput 1
        ([InEvent.idle true, .read [104, 105] true, .idle true, .read [10, 120] true]
          ++ .read [] true :: [])
        [false, true, false]
      = [.write [104, 105], .write [10, 120], .write [4], .write [4], .write [4], .close] :=
  have hfeed : ∀ e ∈ [InEvent.idle true, .read [104, 105] true, .idle true,
      .read [10, 120] true], feeding e := by
    intro e he
    simp only [List.mem_cons, List.mem_singleton, List.not_mem_nil, or_false] at he
    rcases he with rfl | rfl | rfl | rfl
    · exact Or.inl rfl
    · exact Or.inr ⟨_, by decide, rfl⟩
    · exact Or.inl rfl
    · exact Or.inr ⟨_, by decide, rfl⟩
  ⟨⟨by decide, hfeed⟩,
    PumpInput_eof_protocol 1 _ [] true [false, true, false] (by decide) hfeed, by decide⟩

/-! ## ChownContents -/

theorem or_and_rw (mode : Nat) : (mode ||| S_IRWUSR) &&& S_IRWUSR = S_IRWUSR := by
  apply Nat.eq_of_testBit_eq
  intro i
  simp only [Nat.testBit_and, Nat.testBit_or]
  cases mode.testBit i <;> cases S_IRWUSR.testBit i <;> rfl

mutual
theorem ChownContents_owned (sys : Syscall → List Char → Bool) (uid : Int) :
    ∀ (path : List Char) (node : Node), noSkips node = true →
      (ChownContents sys uid path node).1 = 0 →
      ownedBy uid (ChownContents sys uid path node).2 = true
  | path, .file owner mode, _, h => by
    unfold ChownContents at h ⊢
    split at h
    · exact absurd h (by norm_num)
    · split at h
      · exact absurd h (by norm_num)
      · rename_i h1 h2
        rw [if_neg h1, if_neg h2]
        simp [ownedBy, or_and_rw]
  | path, .dir owner mode entries, hn, h => by
    unfold ChownContents at h ⊢
    split at h
    · exact absurd h (by norm_num)
    · split at h
      · exact absurd h (by norm_num)
      · split at h
        · exact absurd h (by norm_num)
        · rename_i h1 h2 h3
          rw [if_neg h1, if_neg h2, if_neg h3]
          have hsub := chownEntries_owned sys uid path entries
            (by unfold noSkips at hn; exact hn) h
          simp [ownedBy, or_and_rw, hsub]
theorem chownEntries_owned (sys : Syscall → List Char → Bool) (uid : Int) :
    ∀ (path : List Char) (entries : List (List Char × Node)), entriesNoSkips entries = true →
      (chownEntries sys uid path entries).1 = 0 →
      entriesOwnedBy uid (chownEntries sys uid path entries).2 = true
  | path, [], _, _ => by
    unfold chownEntries
    rfl
  | path, (name, node) :: rest, hn, h => by
    unfold entriesNoSkips at hn
    simp only [Bool.and_eq_true, Bool.not_eq_true'] at hn
    obtain ⟨⟨hname, hnode⟩, hrest⟩ := hn
    unfold chownEntries at h ⊢
    rw [if_neg (by simp [hname])] at h ⊢
    split at h
    · exact absurd h (by norm_num)
    · rename_i hok
      rw [if_neg hok]
      have h1 := ChownContents_owned sys uid (subPath path name) node hnode (by simpa using hok)
      have h2 := chownEntries_owned sys uid path rest hrest h
      simp [entriesOwnedBy, h1, h2]
end

/-- C15: at the failing input: a directory that holds the files "a" and
"..x" and the directory "sub" with the file "b", every call succeeding.  The
name "..x" passes the test of lines 326-327, meant for "." and "..", so the
entry is skipped: `ChownContents` returns 0 and yet not everything beneath the
path is owned by the uid.  Without that entry the same run leaves everything
owned by the uid with the owner-read and owner-write bits set. -/
theorem ChownContents_skips_dotdot_names :
    skipsName ['.', '.', 'x'] = true
      ∧ (ChownContents allCallsOk 1001 ['.'] dottedTree).1 = 0
      ∧ ownedBy 1001 (ChownContents allCallsOk 1001 ['.'] dottedTree).2 = false
      ∧ (chownEntries allCallsOk 1001 ['.']
          [(['.', '.', 'x'], Node.file 0 0)]).2.map (fun e => ownedBy 1001 e.2) = [false]
      ∧ ownedBy 1001 (ChownContents allCallsOk 1001 ['.']
          (.dir 0 0o755 [(['a'], .file 0 0), (['s', 'u', 'b'], .dir 0 0 [(['b'], .file 0 0)])])).2
        = true := by
  decide

/-! ## atoi on decimal numerals -/

theorem digitChar_spec (d : Nat) (h : d < 10) :
    ('0' ≤ digitChar d ∧ digitChar d ≤ '9') ∧ ((digitChar d).toNat : Int) - 48 = (d : Int)
      ∧ isspace (digitChar d) = false ∧ digitChar d ≠ '-' ∧ digitChar d ≠ '+' := by
  interval_cases d <;> decide

theorem atoiDigits_decimal (ds : List Nat) :
    ∀ acc : Int, (∀ d ∈ ds, d < 10) →
      atoiDigits (ds.map digitChar) acc = decimalValue ds acc := by
  induction ds with
  | nil => intro acc _; rfl
  | cons d rest ih =>
    intro acc hd
    obtain ⟨hr, hv, _⟩ := digitChar_spec d (hd d (List.mem_cons_self _ _))
    rw [List.map_cons]
    unfold atoiDigits
    rw [if_pos hr, hv, ih _ (fun x hx => hd x (List.mem_cons_of_mem _ hx))]
    rfl

/-- On a decimal numeral (digits only, most significant first) whose value
fits an `int`, the `atoi` of the sample runs returns that value. -/
theorem atoi_decimal (ds : List Nat) (hd : ∀ d ∈ ds, d < 10)
    (hv : decimalValue ds 0 < 2147483648) (h0 : 0 ≤ decimalValue ds 0) :
    atoi (ds.map digitChar) = decimalValue ds 0 := by
  cases ds with
  | nil =>
    simp only [List.map_nil, atoi, List.dropWhile_nil]
    exact wrap32_of_range _ (by decide) (by decide)
  | cons d rest =>
    obtain ⟨_, _, hs, hm, hp⟩ := digitChar_spec d (hd d (List.mem_cons_self _ _))
    have hdrop : List.dropWhile isspace ((d :: rest).map digitChar) = (d :: rest).map digitChar := by
      rw [List.map_cons, List.dropWhile_cons_of_neg (by simp [hs])]
    unfold atoi
    rw [hdrop]
    have hmatch : (match (d :: rest).map digitChar with
        | '-' :: r => wrap32 (-(atoiDigits r 0))
        | '+' :: r => wrap32 (atoiDigits r 0)
        | r => wrap32 (atoiDigits r 0))
        = wrap32 (atoiDigits ((d :: rest).map digitChar) 0) := by
      rw [List.map_cons]
      split
      · rename_i r heq
        exact absurd (List.cons.inj heq).1 hm
      · rename_i r heq
        exact absurd (List.cons.inj heq).1 hp
      · rfl
    rw [hmatch, atoiDigits_decimal _ _ hd]
    exact wrap32_of_range _ (by omega) hv

end SafeRun
